import Mathlib

/-!
Verification of the semantic-diff engine of the pyff repository.

The Python sources under pyff/ are shallowly embedded: the fragment of the
Python AST that the comparison engine inspects becomes the inductive types
below, Python dicts become insertion-ordered association lists, Python sets
of hashable values become either ordered lists (when object identity or
iteration order matters) or Finsets (when only membership does), and the
few places where the code can raise become Except-valued functions.
-/

namespace Pyff

/-- Python `ast.alias`, one entry of an import statement. -/
structure PyAlias where
  name : String
  asname : Option String
deriving DecidableEq, Repr

mutual

/-- The expression fragment of the Python AST the engine inspects. -/
inductive PyExpr where
  | name (id : String)
  | attr (value : PyExpr) (a : String)
  | call (f : PyExpr) (args : PyExprList)
  | const (v : String)
deriving DecidableEq, Repr

/-- A list of expressions (spelled out so equality is derivable). -/
inductive PyExprList where
  | nil
  | cons (e : PyExpr) (es : PyExprList)
deriving DecidableEq, Repr

end

/-- Embed an ordinary list of expressions. -/
def PyExprList.ofList : List PyExpr → PyExprList
  | [] => .nil
  | e :: es => .cons e (PyExprList.ofList es)

mutual

/-- The statement fragment of the Python AST the engine inspects.
Relative from-imports (`module` of `None`) are outside the fragment:
the module of `importFrom` is a plain string. -/
inductive PyStmt where
  | expr (e : PyExpr)
  | assign (targets : PyExprList) (value : PyExpr)
  | annAssign (target : PyExpr) (ann : PyExpr) (value : Option PyExpr)
  | ret (value : Option PyExpr)
  | pass
  | imprt (names : List PyAlias)
  | importFrom (module : String) (names : List PyAlias)
  | funcDef (fname : String) (decorators : PyExprList) (body : PyStmtList)
  | classDef (cname : String) (bases : PyExprList) (body : PyStmtList)
deriving DecidableEq, Repr

/-- A list of statements (spelled out so equality is derivable). -/
inductive PyStmtList where
  | nil
  | cons (s : PyStmt) (ss : PyStmtList)
deriving DecidableEq, Repr

end

/-- Embed an ordinary list of statements. -/
def PyStmtList.ofList : List PyStmt → PyStmtList
  | [] => .nil
  | s :: ss => .cons s (PyStmtList.ofList ss)

/-- Body of a `funcDef`/`classDef` node (`node.body` in the source). -/
def PyStmt.bodyOf : PyStmt → PyStmtList
  | .funcDef _ _ b => b
  | .classDef _ _ b => b
  | _ => .nil

/-- Insertion-ordered dictionary operations (Python `dict` semantics:
assignment overwrites in place, a fresh key is appended last). -/
def dictInsert (d : List (String × α)) (k : String) (v : α) : List (String × α) :=
  if d.any (fun p => p.1 = k) then d.map (fun p => if p.1 = k then (k, v) else p)
  else d ++ [(k, v)]

/-- Python `d[k]` / `d.get(k)`: the value stored under `k`, if any. -/
def dictGet? (d : List (String × α)) (k : String) : Option α :=
  (d.find? (fun p => p.1 = k)).map (·.2)

/-- Python `k in d`. -/
def dictContains (d : List (String × α)) (k : String) : Bool :=
  d.any (fun p => p.1 = k)

/-- Python `del d[k]` (total: removes every pair under `k`). -/
def dictRemove (d : List (String × α)) (k : String) : List (String × α) :=
  d.filter (fun p => p.1 ≠ k)

/-- Insertion-ordered set of strings (Python `set.add`). -/
def setAdd (s : List String) (x : String) : List String :=
  if x ∈ s then s else s ++ [x]

end Pyff

namespace Pyff

/-- The import statement node an imported name points back to
(`ImportedName.node`, one of `ast.Import` / `ast.ImportFrom`). -/
inductive ImportNode where
  | direct (names : List PyAlias)
  | fromModule (module : String) (names : List PyAlias)
deriving DecidableEq, Repr

/-- `pyff.imports.ImportedName`: a single name binding introduced by an import. -/
structure ImportedName where
  name : String
  node : ImportNode
  al : PyAlias
deriving DecidableEq, Repr

/-- `ImportedName.is_import`. -/
def ImportedName.isImport (n : ImportedName) : Bool :=
  match n.node with
  | .direct _ => true
  | .fromModule _ _ => false

/-- `ImportedName.is_import_from`. -/
def ImportedName.isImportFrom (n : ImportedName) : Bool :=
  match n.node with
  | .direct _ => false
  | .fromModule _ _ => true

/-- The module of the underlying from-import node (only used on
`is_import_from` names). -/
def ImportedName.moduleOf (n : ImportedName) : String :=
  match n.node with
  | .direct _ => ""
  | .fromModule m _ => m

/-- `ImportedName.canonical_name`: `import X.Y [as z]` canonicalizes to `X.Y`;
`from M import N [as z]` canonicalizes to `M.N`. -/
def ImportedName.canonicalName (n : ImportedName) : String :=
  match n.node with
  | .direct _ => n.al.name
  | .fromModule m _ => m ++ "." ++ n.al.name

/-- Left fold building `Name/Attribute` chains, as the `while items:` loop does. -/
def buildDotted (head : String) (rest : List String) : PyExpr :=
  rest.foldl (fun e a => .attr e a) (.name head)

/-- Helper for `splitDot`: split the remaining characters at each dot. -/
def splitDotAux : List Char → List Char → List String
  | [], acc => [String.mk acc.reverse]
  | c :: rest, acc =>
    if c = '.' then String.mk acc.reverse :: splitDotAux rest []
    else splitDotAux rest (c :: acc)

/-- Python `s.split(".")` on a dotted name. -/
def splitDot (s : String) : List String := splitDotAux s.data []

/-- `ImportedName.canonical_ast`: the AST of the full dotted path. -/
def ImportedName.canonicalAst (n : ImportedName) : PyExpr :=
  match n.node with
  | .direct _ =>
    match splitDot n.al.name with
    | [] => .name ""
    | h :: t => buildDotted h t
  | .fromModule m _ =>
    match splitDot m ++ [n.al.name] with
    | [] => .name ""
    | h :: t => buildDotted h t

/-- `pyff.imports.ImportedNames`: dict from local name to `ImportedName`,
plus the set of modules referenced by from-import statements. -/
structure ImportedNames where
  names : List (String × ImportedName)
  fromModules : List String
deriving DecidableEq, Repr

/-- The empty `ImportedNames()`. -/
def ImportedNames.empty : ImportedNames := ⟨[], []⟩

/-- `ImportedNames._add`: bind the alias (or its `asname`) to an `ImportedName`. -/
def ImportedNames.addName (ns : ImportedNames) (a : PyAlias) (node : ImportNode) :
    ImportedNames :=
  match a.asname with
  | some asn => { ns with names := dictInsert ns.names asn ⟨asn, node, a⟩ }
  | none => { ns with names := dictInsert ns.names a.name ⟨a.name, node, a⟩ }

/-- `ImportedNames.add_import`: record an `import X, Y` statement. -/
def ImportedNames.addImport (ns : ImportedNames) (aliases : List PyAlias) :
    ImportedNames :=
  aliases.foldl (fun acc a => acc.addName a (.direct aliases)) ns

/-- `ImportedNames.add_importfrom`: record a `from M import X, Y` statement;
a truthy module is added to `from_modules`. -/
def ImportedNames.addImportFrom (ns : ImportedNames) (module : String)
    (aliases : List PyAlias) : ImportedNames :=
  let ns := aliases.foldl (fun acc a => acc.addName a (.fromModule module aliases)) ns
  if module ≠ "" then { ns with fromModules := setAdd ns.fromModules module } else ns

mutual

/-- `ImportExtractor` visiting one statement (`generic_visit` descends into
function and class bodies; import statements have no statement children). -/
def extractImportsStmt (ns : ImportedNames) : PyStmt → ImportedNames
  | .imprt aliases => ns.addImport aliases
  | .importFrom m aliases => ns.addImportFrom m aliases
  | .funcDef _ _ body => extractImportsList ns body
  | .classDef _ _ body => extractImportsList ns body
  | _ => ns

/-- `ImportExtractor` folded over a statement list. -/
def extractImportsList (ns : ImportedNames) : PyStmtList → ImportedNames
  | .nil => ns
  | .cons s rest => extractImportsList (extractImportsStmt ns s) rest

end

/-- `ImportedNames.extract`: run the import walker over a module body. -/
def ImportedNames.extract (code : PyStmtList) : ImportedNames :=
  extractImportsList ImportedNames.empty code

end Pyff

namespace Pyff

/-- Mutable state of the `FullyQualifyNames` transformer: the performed
substitutions, the canonical-to-local reference table, and the dotted-path
currently being rebuilt (`_current`). -/
structure FQState where
  substitutions : List (String × String)
  references : List (String × String)
  current : Option String
deriving DecidableEq, Repr

/-- The state `FullyQualifyNames.__init__` starts from. -/
def FQState.init : FQState := ⟨[], [], none⟩

mutual

/-- `FullyQualifyNames` on an expression (`visit_Name` / `visit_Attribute`
plus the default `generic_visit` traversal on other nodes). -/
def fqExpr (imports : ImportedNames) : PyExpr → FQState → PyExpr × FQState
  | .name id, st =>
    let st := { st with current := none }
    match dictGet? imports.names id with
    | some n =>
      let canonical := n.canonicalName
      let st := { st with current := some canonical,
                          references := dictInsert st.references canonical id }
      if id = canonical then (.name id, st)
      else (n.canonicalAst,
            { st with substitutions := dictInsert st.substitutions id canonical })
    | none => (.name id, st)
  | .attr v a, st =>
    let (v', st) := fqExpr imports v st
    match st.current with
    | some prefx =>
      let cur := prefx ++ "." ++ a
      let key := (dictGet? st.references prefx).getD ""
      (.attr v' a, { st with current := some cur,
                             references := dictInsert st.references cur (key ++ "." ++ a) })
    | none => (.attr v' a, st)
  | .call f args, st =>
    let (f', st) := fqExpr imports f st
    let (args', st) := fqExprList imports args st
    (.call f' args', st)
  | .const v, st => (.const v, st)

/-- `FullyQualifyNames` over an expression list (fields visited in order). -/
def fqExprList (imports : ImportedNames) : PyExprList → FQState → PyExprList × FQState
  | .nil, st => (.nil, st)
  | .cons e es, st =>
    let (e', st) := fqExpr imports e st
    let (es', st) := fqExprList imports es st
    (.cons e' es', st)

end

/-- `FullyQualifyNames` on an optional expression field. -/
def fqOptExpr (imports : ImportedNames) : Option PyExpr → FQState → Option PyExpr × FQState
  | none, st => (none, st)
  | some e, st =>
    let (e', st) := fqExpr imports e st
    (some e', st)

mutual

/-- `FullyQualifyNames` on a statement: the default `generic_visit`
traversal, visiting child fields in their AST field order. -/
def fqStmt (imports : ImportedNames) : PyStmt → FQState → PyStmt × FQState
  | .expr e, st =>
    let (e', st) := fqExpr imports e st
    (.expr e', st)
  | .assign targets value, st =>
    let (targets', st) := fqExprList imports targets st
    let (value', st) := fqExpr imports value st
    (.assign targets' value', st)
  | .annAssign target ann value, st =>
    let (target', st) := fqExpr imports target st
    let (ann', st) := fqExpr imports ann st
    let (value', st) := fqOptExpr imports value st
    (.annAssign target' ann' value', st)
  | .ret value, st =>
    let (value', st) := fqOptExpr imports value st
    (.ret value', st)
  | .pass, st => (.pass, st)
  | .imprt ns, st => (.imprt ns, st)
  | .importFrom m ns, st => (.importFrom m ns, st)
  | .funcDef n decs body, st =>
    let (body', st) := fqStmtList imports body st
    let (decs', st) := fqExprList imports decs st
    (.funcDef n decs' body', st)
  | .classDef n bases body, st =>
    let (bases', st) := fqExprList imports bases st
    let (body', st) := fqStmtList imports body st
    (.classDef n bases' body', st)

/-- `FullyQualifyNames` over a statement list. -/
def fqStmtList (imports : ImportedNames) : PyStmtList → FQState → PyStmtList × FQState
  | .nil, st => (.nil, st)
  | .cons s ss, st =>
    let (s', st) := fqStmt imports s st
    let (ss', st) := fqStmtList imports ss st
    (.cons s' ss', st)

end

/-- The set of `SingleExternalNameUsageChange` pairs (old local name, new
local name) that `find_external_name_matches` collects once both statements
have been fully qualified. -/
def matchChanges (old new : PyStmt) (oldImports newImports : ImportedNames) :
    Finset (String × String) :=
  let (fqOld, stOld) := fqStmt oldImports old .init
  let (fqNew, stNew) := fqStmt newImports new .init
  if fqOld = fqNew then
    (stOld.substitutions.filterMap
        (fun p => (dictGet? stNew.references p.2).map (fun r => (p.1, r)))).toFinset
    ∪ (stNew.substitutions.filterMap
        (fun p => (dictGet? stOld.references p.2).map (fun r => (r, p.1)))).toFinset
  else ∅

/-- `find_external_name_matches`: `None` when the statements are identical or
no alias change was collected; otherwise the collected change set (the
`ExternalNameUsageChange` object). -/
def findExternalNameMatches (old new : PyStmt) (oldImports newImports : ImportedNames) :
    Option (Finset (String × String)) :=
  if old = new then none
  else
    let changes := matchChanges old new oldImports newImports
    if changes = ∅ then none else some changes

/-- `pyff.statements.StatementPyfference`. -/
structure StatementPyfference where
  semanticallyRelevant : Finset (Finset (String × String))
  semanticallyIrrelevant : Finset (Finset (String × String))
deriving DecidableEq

/-- `StatementPyfference.semantically_different`: some relevant change is
known, or no change at all was identified. -/
def StatementPyfference.semanticallyDifferent (p : StatementPyfference) : Bool :=
  decide (p.semanticallyRelevant ≠ ∅) || decide (p.semanticallyIrrelevant = ∅)

/-- `StatementPyfference.is_specific`: at least one identified change. -/
def StatementPyfference.isSpecific (p : StatementPyfference) : Bool :=
  decide (p.semanticallyRelevant ≠ ∅) || decide (p.semanticallyIrrelevant ≠ ∅)

/-- `pyff_statement`: `None` for (dump-)identical statements, otherwise a
`StatementPyfference` holding the alias change as semantically irrelevant
when one was found. -/
def pyffStatement (oldStatement newStatement : PyStmt)
    (oldImports newImports : ImportedNames) : Option StatementPyfference :=
  if oldStatement = newStatement then none
  else
    some { semanticallyRelevant := ∅,
           semanticallyIrrelevant :=
             match findExternalNameMatches oldStatement newStatement oldImports newImports with
             | some change => {change}
             | none => ∅ }

end Pyff

namespace Pyff

/-- The `FunctionImplementationChange` class family: the base class is the
generic "Code semantics changed" record, `ExternalUsageChange` carries the
gone/appeared imported-name sets, `StatementChange` wraps a statement diff. -/
inductive FIChange where
  | generic
  | externalUsage (gone appeared : Finset String)
  | stmtChange (change : StatementPyfference)
deriving DecidableEq

/-- The Python `__hash__` of each record kind (each class hashes a fixed
string, so the hash only depends on the class). -/
def FIChange.tag : FIChange → String
  | .generic => "FunctionImplementationChange"
  | .externalUsage _ _ => "ExternalUsageChange"
  | .stmtChange _ => "StatementChange"

/-- The Python `__eq__` as invoked on two records with equal hashes:
`ExternalUsageChange.__eq__` compares the two sets, while the inherited
`FunctionImplementationChange.__eq__` is a bare `isinstance` check, true for
every member of the family. -/
def FIChange.pyEq : FIChange → FIChange → Bool
  | .externalUsage g a, .externalUsage g' a' => decide (g = g') && decide (a = a')
  | .externalUsage _ _, _ => false
  | _, _ => true

/-- `set.add` on a set of implementation-change records: a record equal to a
present record with the same hash is dropped. -/
def pySetAdd (s : List FIChange) (x : FIChange) : List FIChange :=
  if s.any (fun y => y.tag = x.tag && FIChange.pyEq y x) then s else s ++ [x]

/-- Whether a record is the generic base-class record. -/
def FIChange.isGeneric : FIChange → Bool
  | .generic => true
  | _ => false

/-- Whether a record is a wrapped statement change. -/
def FIChange.isStmtChange : FIChange → Bool
  | .stmtChange _ => true
  | _ => false

/-- `pyff.functions.FunctionPyfference`. -/
structure FunctionPyfference where
  name : String
  oldName : Option String
  implementation : List FIChange
deriving DecidableEq

/-- Python truthiness of an optional string (`None` and `""` are falsy). -/
def optStrTruthy : Option String → Bool
  | some s => s ≠ ""
  | none => false

/-- `FunctionPyfference.simplify`: `self if self.old_name or
self.implementation else None`. -/
def FunctionPyfference.simplify (p : FunctionPyfference) : Option FunctionPyfference :=
  if optStrTruthy p.oldName || !p.implementation.isEmpty then some p else none

/-- `pyff.functions.FunctionSummary`: name, defining node, property flag. -/
structure FunctionSummary where
  name : String
  node : PyStmt
  isProperty : Bool
deriving DecidableEq

/-- The body-walking part of `pyff_function`: `zip_longest` over the two
bodies, recording a generic change (and stopping) when one body runs out,
and otherwise classifying each statement pair through `pyff_statement`. -/
def recordBody (oldImports newImports : ImportedNames) :
    PyStmtList → PyStmtList → List FIChange → List FIChange
  | .nil, .nil, acc => acc
  | .nil, .cons _ _, acc => pySetAdd acc .generic
  | .cons _ _, .nil, acc => pySetAdd acc .generic
  | .cons o os, .cons n ns, acc =>
    let acc :=
      match pyffStatement o n oldImports newImports with
      | none => acc
      | some change =>
        if change.isSpecific then pySetAdd acc (.stmtChange change)
        else pySetAdd acc .generic
    recordBody oldImports newImports os ns acc

/-- State of the `ExternalNamesExtractor` walker: the collected imported
names and the dotted path being assembled (`in_progress`). -/
structure ENState where
  names : Finset String
  inProgress : Option String
deriving DecidableEq

mutual

/-- `ExternalNamesExtractor` on an expression. -/
def enExpr (imports : ImportedNames) : PyExpr → ENState → ENState
  | .name id, st =>
    if dictContains imports.names id then { st with inProgress := none, names := insert id st.names }
    else { st with inProgress := some id }
  | .attr v a, st =>
    let st := enExpr imports v { st with inProgress := none }
    match st.inProgress with
    | some p =>
      let q := p ++ "." ++ a
      if dictContains imports.names q then { st with inProgress := none, names := insert q st.names }
      else { st with inProgress := some q }
    | none => st
  | .call f args, st =>
    let st := enExpr imports f st
    enExprList imports args st
  | .const _, st => st

/-- `ExternalNamesExtractor` over an expression list. -/
def enExprList (imports : ImportedNames) : PyExprList → ENState → ENState
  | .nil, st => st
  | .cons e es, st => enExprList imports es (enExpr imports e st)

end

/-- `ExternalNamesExtractor` on an optional expression field. -/
def enOptExpr (imports : ImportedNames) : Option PyExpr → ENState → ENState
  | none, st => st
  | some e, st => enExpr imports e st

mutual

/-- `ExternalNamesExtractor` on a statement (default `generic_visit`). -/
def enStmt (imports : ImportedNames) : PyStmt → ENState → ENState
  | .expr e, st => enExpr imports e st
  | .assign targets value, st =>
    let st := enExprList imports targets st
    enExpr imports value st
  | .annAssign target ann value, st =>
    let st := enExpr imports target st
    let st := enExpr imports ann st
    enOptExpr imports value st
  | .ret value, st => enOptExpr imports value st
  | .pass, st => st
  | .imprt _, st => st
  | .importFrom _ _, st => st
  | .funcDef _ decs body, st =>
    let st := enStmtList imports body st
    enExprList imports decs st
  | .classDef _ bases body, st =>
    let st := enExprList imports bases st
    enStmtList imports body st

/-- `ExternalNamesExtractor` over a statement list. -/
def enStmtList (imports : ImportedNames) : PyStmtList → ENState → ENState
  | .nil, st => st
  | .cons s ss, st => enStmtList imports ss (enStmt imports s st)

end

/-- The imported names referenced by a function body (one walker is reused
across the body's statements, so the state threads through). -/
def usedNames (imports : ImportedNames) (body : PyStmtList) : Finset String :=
  (enStmtList imports body ⟨∅, none⟩).names

/-- `compare_import_usage`: the symmetric difference of imported-name usage
between two function bodies; `None` when both directions are empty. -/
def compareImportUsage (old new : PyStmt) (oldImports newImports : ImportedNames) :
    Option FIChange :=
  let first := usedNames oldImports old.bodyOf
  let second := usedNames newImports new.bodyOf
  let appeared := second \ first
  let gone := first \ second
  if appeared ≠ ∅ ∨ gone ≠ ∅ then some (.externalUsage gone appeared) else none

/-- `pyff_function`: record a rename, the body comparison and the external
usage comparison, and build the result (`None` when nothing was recorded). -/
def pyffFunction (old new : FunctionSummary) (oldImports newImports : ImportedNames) :
    Option FunctionPyfference :=
  let oldName := if old.name ≠ new.name then some old.name else none
  let impl := recordBody oldImports newImports old.node.bodyOf new.node.bodyOf []
  let impl :=
    match compareImportUsage old.node new.node oldImports newImports with
    | some c => pySetAdd impl c
    | none => impl
  if oldName = none ∧ impl = [] then none
  else some ⟨new.name, oldName, impl⟩

/-- `FunctionsExtractor._is_property_decorator` applied across the
decorator list (the loop with `break`). -/
def hasPropertyDecorator : PyExprList → Bool
  | .nil => false
  | .cons (.name id) rest => id = "property" || hasPropertyDecorator rest
  | .cons _ rest => hasPropertyDecorator rest

/-- The `FunctionSummary` stored by `FunctionsExtractor.visit_FunctionDef`. -/
def mkFunctionSummary (n : String) (decs : PyExprList) (body : PyStmtList) :
    FunctionSummary :=
  ⟨n, .funcDef n decs body, hasPropertyDecorator decs⟩

/-- `FunctionsExtractor` over top-level statements: function definitions are
recorded (overwriting an earlier one of the same name), class bodies are
not entered, other statements contain no function definition in the
modelled fragment. -/
def extractFunctions (d : List (String × FunctionSummary)) : List PyStmt →
    List (String × FunctionSummary)
  | [] => d
  | .funcDef n decs body :: rest =>
    extractFunctions (dictInsert d n (mkFunctionSummary n decs body)) rest
  | .classDef _ _ _ :: rest => extractFunctions d rest
  | _ :: rest => extractFunctions d rest

/-- Plain-list view of a statement list (module bodies are iterated as
ordinary sequences by the extractors). -/
def PyStmtList.toList : PyStmtList → List PyStmt
  | .nil => []
  | .cons s ss => s :: PyStmtList.toList ss

/-- Python `dict.popitem`: remove and return the most recently inserted
entry; fails on an empty dict (the `KeyError` path). -/
def popItem (d : List (String × α)) : Option ((String × α) × List (String × α)) :=
  match d.getLast? with
  | none => none
  | some last => some (last, d.dropLast)

/-- `pyff_function_code` (on parsed bodies; parsing is external): the same
extractor object is visited over the old and then the new module, each time
popping the last recorded function; an empty pop raises the `ValueError`. -/
def pyffFunctionCode (old new : PyStmtList) (oldImports newImports : ImportedNames) :
    Except String (Option FunctionPyfference) :=
  match popItem (extractFunctions [] old.toList) with
  | none => .error "Old module does not seem to contain exactly one function code"
  | some ((_, oldSummary), leftover) =>
    match popItem (extractFunctions leftover new.toList) with
    | none => .error "Old module does not seem to contain exactly one function code"
    | some ((_, newSummary), _) =>
      .ok (pyffFunction oldSummary newSummary oldImports newImports)

/-- `pyff.functions.FunctionsPyfference`. -/
structure FunctionsPyfference where
  new : List (String × FunctionSummary)
  changed : List (String × FunctionPyfference)
  removed : List (String × FunctionSummary)
deriving DecidableEq

/-- `FunctionsPyfference.simplify`: simplify each changed entry, then
`self` if any of the three collections is non-empty. -/
def FunctionsPyfference.simplify (p : FunctionsPyfference) : Option FunctionsPyfference :=
  let changed := p.changed.filterMap (fun q => (q.2.simplify).map (fun c => (q.1, c)))
  if !p.new.isEmpty || !changed.isEmpty || !p.removed.isEmpty then
    some { p with changed := changed }
  else none

/-- `pyff_functions`: compare the function dictionaries of two bodies. -/
def pyffFunctions (old new : PyStmtList) (oldImports newImports : ImportedNames) :
    Option FunctionsPyfference :=
  let od := extractFunctions [] old.toList
  let nd := extractFunctions [] new.toList
  let changed := od.filterMap (fun p =>
    match dictGet? nd p.1 with
    | some nv => (pyffFunction p.2 nv oldImports newImports).map (fun c => (p.1, c))
    | none => none)
  let newFunctions := nd.filter (fun p => !dictContains od p.1)
  let removedFunctions := od.filter (fun p => !dictContains nd p.1)
  if !changed.isEmpty || !newFunctions.isEmpty || !removedFunctions.isEmpty then
    some ⟨newFunctions, changed, removedFunctions⟩
  else none

end Pyff

namespace Pyff

/-- `pyff.imports.FromImportPyfference`: per-module new/removed from-import
names plus the new/removed from-import module sets. -/
structure FromImportPyfference where
  new : List (String × List ImportedName)
  removed : List (String × List ImportedName)
  newModules : List String
  removedModules : List String
deriving DecidableEq, Repr

/-- `FromImportPyfference.__bool__`. -/
def FromImportPyfference.toBool (f : FromImportPyfference) : Bool :=
  !f.new.isEmpty || !f.removed.isEmpty || !f.newModules.isEmpty || !f.removedModules.isEmpty

/-- `pyff.imports.ImportsPyfference`. -/
structure ImportsPyfference where
  newImports : List ImportedName
  removedImports : List ImportedName
  fromimports : FromImportPyfference
  changedToFromimport : List (String × List ImportedName)
  changedToImport : List (String × List ImportedName)
deriving DecidableEq, Repr

/-- `ImportsPyfference.__bool__`. -/
def ImportsPyfference.toBool (c : ImportsPyfference) : Bool :=
  !c.newImports.isEmpty || !c.removedImports.isEmpty || c.fromimports.toBool
    || !c.changedToFromimport.isEmpty || !c.changedToImport.isEmpty

/-- `ImportsPyfference.simplify`: `self if self else None`. -/
def ImportsPyfference.simplify (c : ImportsPyfference) : Option ImportsPyfference :=
  if c.toBool then some c else none

/-- Add a from-imported name under its module key (`FromImportPyfference.
add_new` / `add_removed`: a per-module set collects the names). -/
def addMulti (d : List (String × List ImportedName)) (n : ImportedName) :
    List (String × List ImportedName) :=
  let m := n.moduleOf
  match dictGet? d m with
  | none => d ++ [(m, [n])]
  | some vs => dictInsert d m (vs ++ [n])

/-- The per-module map grouping a list of from-imported names. -/
def buildFromMap (l : List ImportedName) : List (String × List ImportedName) :=
  l.foldl addMulti []

/-- First reduction loop of `ImportsPyfference.reduce`: every new directly
imported name whose name is a removed from-import module becomes an
"upgraded to direct import" record; looking up the removed names raises a
`KeyError` when the per-module map has no entry for the module. -/
def reduceToImport : List ImportedName → ImportsPyfference →
    Except String ImportsPyfference
  | [], c => .ok c
  | n :: rest, c =>
    if n.name ∈ c.fromimports.removedModules then
      match dictGet? c.fromimports.removed n.name with
      | none => .error ("KeyError: " ++ n.name)
      | some names =>
        reduceToImport rest
          { c with
            newImports := c.newImports.erase n,
            changedToImport := dictInsert c.changedToImport n.name names,
            fromimports :=
              { c.fromimports with
                removedModules := c.fromimports.removedModules.erase n.name,
                removed := dictRemove c.fromimports.removed n.name } }
    else reduceToImport rest c

/-- Second reduction loop of `ImportsPyfference.reduce`: every removed
direct import whose name is a new from-import module becomes a "downgraded
to from-import" record (with the symmetric `KeyError` risk). -/
def reduceToFromImport : List ImportedName → ImportsPyfference →
    Except String ImportsPyfference
  | [], c => .ok c
  | n :: rest, c =>
    if n.name ∈ c.fromimports.newModules then
      match dictGet? c.fromimports.new n.name with
      | none => .error ("KeyError: " ++ n.name)
      | some names =>
        reduceToFromImport rest
          { c with
            removedImports := c.removedImports.erase n,
            changedToFromimport := dictInsert c.changedToFromimport n.name names,
            fromimports :=
              { c.fromimports with
                newModules := c.fromimports.newModules.erase n.name,
                new := dictRemove c.fromimports.new n.name } }
    else reduceToFromImport rest c

/-- `ImportsPyfference.reduce`: both loops, each over a snapshot of the
respective import set. -/
def ImportsPyfference.reduce (c : ImportsPyfference) : Except String ImportsPyfference :=
  match reduceToImport c.newImports c with
  | .error e => .error e
  | .ok c1 => reduceToFromImport c1.removedImports c1

/-- The `ImportsPyfference` that `ImportedNames.compare` accumulates before
calling `reduce`: names bound on one side only, dispatched on their import
statement kind, plus the from-import module set differences. -/
def compareRaw (old new : ImportedNames) : ImportsPyfference :=
  { newImports :=
      ((new.names.filter (fun p => !dictContains old.names p.1 && p.2.isImport)).map (·.2)),
    removedImports :=
      ((old.names.filter (fun p => !dictContains new.names p.1 && p.2.isImport)).map (·.2)),
    fromimports :=
      { new := buildFromMap ((new.names.filter (fun p =>
          !dictContains old.names p.1 && p.2.isImportFrom && p.2.moduleOf ≠ "")).map (·.2)),
        removed := buildFromMap ((old.names.filter (fun p =>
          !dictContains new.names p.1 && p.2.isImportFrom && p.2.moduleOf ≠ "")).map (·.2)),
        newModules := new.fromModules.filter (fun m => m ∉ old.fromModules),
        removedModules := old.fromModules.filter (fun m => m ∉ new.fromModules) },
    changedToFromimport := [],
    changedToImport := [] }

/-- `ImportedNames.compare`: accumulate, reduce, and return the change
object when it is truthy. -/
def ImportedNames.compare (old new : ImportedNames) :
    Except String (Option ImportsPyfference) :=
  match (compareRaw old new).reduce with
  | .error e => .error e
  | .ok c => .ok (if c.toBool then some c else none)

/-- `pyff_imports`: extract both import models and compare them. -/
def pyffImports (old new : PyStmtList) : Except String (Option ImportsPyfference) :=
  ImportedNames.compare (ImportedNames.extract old) (ImportedNames.extract new)

end Pyff

namespace Pyff

/-- `kitchensink.HL_OPEN` (two backquotes). -/
def HL_OPEN : String := "\x60\x60"

/-- `kitchensink.HL_CLOSE` (two apostrophes). -/
def HL_CLOSE : String := "\x27\x27"

/-- `kitchensink.hl`: wrap a name in the highlight placeholder markers. -/
def hl (what : String) : String := HL_OPEN ++ what ++ HL_CLOSE

/-- `kitchensink.pluralize` on a sized container. -/
def pluralize (name : String) (n : Nat) : String :=
  if n = 1 then name else name ++ "s"

/-- `pyff.classes.LocalBaseClass` / `ImportedBaseClass`. -/
inductive BaseClass where
  | localBase (name : String)
  | importedBase (name : String)
deriving DecidableEq, Repr

/-- Rendering of a base class reference. -/
def BaseClass.toText : BaseClass → String
  | .localBase n => "local " ++ hl n
  | .importedBase n => "imported " ++ hl n

/-- `pyff.classes.ClassSummary`. -/
structure ClassSummary where
  methods : Finset String
  definition : PyStmt
  attributes : Finset String
  baseclasses : Option (List BaseClass)
deriving DecidableEq

/-- `ClassSummary.name`: the name of the defining `ClassDef` node. -/
def ClassSummary.name (s : ClassSummary) : String :=
  match s.definition with
  | .classDef n _ _ => n
  | _ => ""

/-- `ClassSummary.public_methods`: methods without a leading underscore. -/
def ClassSummary.publicMethods (s : ClassSummary) : Finset String :=
  s.methods.filter (fun m => ¬ m.startsWith "_")

/-- `ClassSummary.private_methods`: methods with a leading underscore. -/
def ClassSummary.privateMethods (s : ClassSummary) : Finset String :=
  s.methods.filter (fun m => m.startsWith "_")

/-- `ClassSummary.__str__`: renders a class with no or one base class and
raises on multiple inheritance. -/
def ClassSummary.toText (s : ClassSummary) : Except String String :=
  let classPart := "class " ++ hl s.name
  let methodPart :=
    "with " ++ toString s.publicMethods.card ++ " public "
      ++ pluralize "method" s.publicMethods.card
  match s.baseclasses with
  | none => .ok (classPart ++ " " ++ methodPart)
  | some [] => .ok (classPart ++ " " ++ methodPart)
  | some [b] => .ok (classPart ++ " derived from " ++ b.toText ++ " " ++ methodPart)
  | some _ => .error "Multiple inheritance not yet implemented"

/-- The number of base classes carried by a summary. -/
def ClassSummary.numBases (s : ClassSummary) : Nat :=
  match s.baseclasses with
  | none => 0
  | some l => l.length

/-- `SelfAttributeExtractor` on one assignment target: `self.attribute`
(an attribute access whose value is the plain name `self`) yields the
attribute; nothing else is examined (the visitor does not recurse). -/
def selfAttrTarget : PyExpr → Finset String
  | .attr (.name id) a => if id = "self" then {a} else ∅
  | _ => ∅

/-- `SelfAttributeExtractor` over the target list of an `Assign`. -/
def selfAttrTargets : PyExprList → Finset String
  | .nil => ∅
  | .cons e es => selfAttrTarget e ∪ selfAttrTargets es

mutual

/-- `AssignmentExtractor` on one statement of a method body: plain and
annotated assignment targets are scanned for `self.attr`; the default
traversal descends into nested statement bodies. -/
def assignAttrsStmt : PyStmt → Finset String
  | .assign targets _ => selfAttrTargets targets
  | .annAssign t _ _ => selfAttrTarget t
  | .funcDef _ _ body => assignAttrsList body
  | .classDef _ _ body => assignAttrsList body
  | _ => ∅

/-- `AssignmentExtractor` over a statement list. -/
def assignAttrsList : PyStmtList → Finset String
  | .nil => ∅
  | .cons s ss => assignAttrsStmt s ∪ assignAttrsList ss

end

mutual

/-- `MethodExtractor` on one statement of a class body: a function
definition contributes its name and its assigned `self` attributes (without
descending further); a nested class is entered by the default traversal. -/
def methodExtractStmt : PyStmt → Finset String × Finset String
  | .funcDef n _ body => ({n}, assignAttrsList body)
  | .classDef _ _ body => methodExtractList body
  | _ => (∅, ∅)

/-- `MethodExtractor` over a statement list. -/
def methodExtractList : PyStmtList → Finset String × Finset String
  | .nil => (∅, ∅)
  | .cons s ss =>
    let p := methodExtractStmt s
    let q := methodExtractList ss
    (p.1 ∪ q.1, p.2 ∪ q.2)

end

/-- `ClassesExtractor.visit_ClassDef` classifying one base-class reference:
the code reads `base.id` unconditionally, which raises on any base that is
not a plain name node (e.g. a dotted attribute access). -/
def baseClassify (names : ImportedNames) : PyExpr → Except String BaseClass
  | .name id =>
    .ok (if dictContains names.names id then .importedBase id else .localBase id)
  | _ => .error "AttributeError: base node has no field id"

/-- The base-classification loop over a class's bases. -/
def baseClassifyList (names : ImportedNames) : PyExprList → Except String (List BaseClass)
  | .nil => .ok []
  | .cons b bs =>
    match baseClassify names b with
    | .error e => .error e
    | .ok c =>
      match baseClassifyList names bs with
      | .error e => .error e
      | .ok cs => .ok (c :: cs)

mutual

/-- `ClassesExtractor` on one statement: class definitions are summarized
(`visit_ClassDef` does not descend, so nested classes are not summarized);
the default traversal enters function bodies. -/
def classesExtractStmt (names : ImportedNames) (acc : List (String × ClassSummary)) :
    PyStmt → Except String (List (String × ClassSummary))
  | .classDef n bases body =>
    let ma := methodExtractList body
    match baseClassifyList names bases with
    | .error e => .error e
    | .ok bs => .ok (dictInsert acc n ⟨ma.1, .classDef n bases body, ma.2, some bs⟩)
  | .funcDef _ _ body => classesExtractList names acc body
  | _ => .ok acc

/-- `ClassesExtractor` over a statement list. -/
def classesExtractList (names : ImportedNames) (acc : List (String × ClassSummary)) :
    PyStmtList → Except String (List (String × ClassSummary))
  | .nil => .ok acc
  | .cons s ss =>
    match classesExtractStmt names acc s with
    | .error e => .error e
    | .ok acc' => classesExtractList names acc' ss

end

/-- `pyff.classes.AttributesPyfference`. -/
structure AttributesPyfference where
  removed : Finset String
  new : Finset String
deriving DecidableEq

/-- `AttributesPyfference.__bool__`. -/
def AttributesPyfference.toBool (a : AttributesPyfference) : Bool :=
  decide (a.removed ≠ ∅) || decide (a.new ≠ ∅)

/-- `pyff.classes.ClassPyfference`. -/
structure ClassPyfference where
  name : String
  attributes : AttributesPyfference
  methods : Option FunctionsPyfference
deriving DecidableEq

/-- `pyff.classes.ClassesPyfference`: new classes plus changed classes. -/
structure ClassesPyfference where
  new : List ClassSummary
  changed : List (String × ClassPyfference)
deriving DecidableEq

/-- `ClassesPyfference.simplify`, exactly as written in the source:
`self if self.new else None` (the `changed` mapping is not consulted). -/
def ClassesPyfference.simplify (p : ClassesPyfference) : Option ClassesPyfference :=
  if !p.new.isEmpty then some p else none

/-- `pyff_class`: method diff via `pyff_functions` over the two class
bodies, attribute set differences, `None` when both are empty. -/
def pyffClass (old new : ClassSummary) (oldImports newImports : ImportedNames) :
    Option ClassPyfference :=
  let methods := pyffFunctions old.definition.bodyOf new.definition.bodyOf oldImports newImports
  let attributes : AttributesPyfference :=
    ⟨old.attributes \ new.attributes, new.attributes \ old.attributes⟩
  if methods.isSome || attributes.toBool then some ⟨new.name, attributes, methods⟩
  else none

/-- `pyff_classes`: extract both class maps, diff classes present in both,
collect classes present only in the new module. -/
def pyffClasses (old new : PyStmtList) (oldImports newImports : ImportedNames) :
    Except String (Option ClassesPyfference) :=
  match classesExtractList oldImports [] old with
  | .error e => .error e
  | .ok oc =>
    match classesExtractList newImports [] new with
    | .error e => .error e
    | .ok nc =>
      let changed := oc.filterMap (fun p =>
        match dictGet? nc p.1 with
        | some nv => (pyffClass p.2 nv oldImports newImports).map (fun c => (p.1, c))
        | none => none)
      let newClasses := (nc.filter (fun p => !dictContains oc p.1)).map (·.2)
      if !changed.isEmpty || !newClasses.isEmpty then .ok (some ⟨newClasses, changed⟩)
      else .ok none

/-- `pyff.modules.ModulePyfference`. -/
structure ModulePyfference where
  imports : Option ImportsPyfference
  classes : Option ClassesPyfference
  functions : Option FunctionsPyfference
  other : List String
deriving DecidableEq

/-- `ModulePyfference.simplify`: simplify each non-`None` component, then
`self` if anything remains. -/
def ModulePyfference.simplify (p : ModulePyfference) : Option ModulePyfference :=
  let p : ModulePyfference :=
    { p with imports := p.imports.bind ImportsPyfference.simplify,
             classes := p.classes.bind ClassesPyfference.simplify,
             functions := p.functions.bind FunctionsPyfference.simplify }
  if p.functions.isSome || p.classes.isSome || p.imports.isSome || !p.other.isEmpty then
    some p
  else none

/-- `pyff_module`: extract both import models, compare imports, classes and
functions, and build the module diff when any of them differ. -/
def pyffModule (old new : PyStmtList) : Except String (Option ModulePyfference) :=
  let oldImports := ImportedNames.extract old
  let newImports := ImportedNames.extract new
  match pyffImports old new with
  | .error e => .error e
  | .ok imports =>
    match pyffClasses old new oldImports newImports with
    | .error e => .error e
    | .ok classes =>
      let functions := pyffFunctions old new oldImports newImports
      if imports.isSome || classes.isSome || functions.isSome then
        .ok (some ⟨imports, classes, functions, []⟩)
      else .ok none

end Pyff

namespace Pyff

/-- Plain-list view of an expression list. -/
def PyExprList.toList : PyExprList → List PyExpr
  | .nil => []
  | .cons e es => e :: PyExprList.toList es

/-- The implementation-change records of an optional function diff. -/
def implOf : Option FunctionPyfference → List FIChange
  | some d => d.implementation
  | none => []

/-- The keys of an association list. -/
def dictKeys (d : List (String × α)) : List String := d.map (·.1)

/-- How many entries an association list holds under a key. -/
def countKey (d : List (String × α)) (k : String) : Nat :=
  d.countP (fun p => p.1 = k)

end Pyff

namespace Pyff


theorem find?_map_keypred (d : List (String × α)) (k k' : String) (v : α) :
    (d.map (fun p => if p.1 = k then (k, v) else p)).find? (fun p => p.1 = k')
      = (d.find? (fun p => p.1 = k')).map (fun p => if p.1 = k then (k, v) else p) := by
  have hfun : ((fun p : String × α => decide (p.1 = k'))
        ∘ fun p => if p.1 = k then (k, v) else p)
      = (fun p : String × α => decide (p.1 = k')) := by
    funext q
    by_cases hq : q.1 = k
    · simp [Function.comp, hq]
    · simp [Function.comp, hq]
  rw [List.find?_map, hfun]

theorem dictGet?_insert (d : List (String × α)) (k k' : String) (v : α) :
    dictGet? (dictInsert d k v) k' = if k' = k then some v else dictGet? d k' := by
  unfold dictInsert dictGet?
  by_cases hc : d.any (fun p => p.1 = k)
  · rw [if_pos hc, find?_map_keypred]
    by_cases hk : k' = k
    · subst hk
      have hsome : (d.find? (fun p => p.1 = k')).isSome := by
        rw [List.find?_isSome]
        obtain ⟨p, hp, he⟩ := List.any_eq_true.mp hc
        exact ⟨p, hp, he⟩
      obtain ⟨p, hp⟩ := Option.isSome_iff_exists.mp hsome
      have hpk : p.1 = k' := by simpa using List.find?_some hp
      rw [hp, if_pos rfl]
      simp [hpk]
    · rw [if_neg hk]
      cases hfind : d.find? (fun p => p.1 = k') with
      | none => simp
      | some p =>
        have hpk : p.1 = k' := by simpa using List.find?_some hfind
        have : ¬ p.1 = k := by rw [hpk]; exact hk
        simp [this]
  · rw [if_neg hc, List.find?_append]
    by_cases hk : k' = k
    · have hnone : d.find? (fun p => p.1 = k') = none := by
        rw [List.find?_eq_none]
        intro p hp
        simp only [decide_eq_true_eq]
        intro he
        exact hc (List.any_eq_true.mpr ⟨p, hp, by simp [he.trans hk]⟩)
      rw [hnone, if_pos hk]
      have hkk : decide (((k, v) : String × α).1 = k') = true := by
        simp [hk.symm]
      simp [List.find?, hkk]
    · have hkk : decide (((k, v) : String × α).1 = k') = false := by
        simp only [decide_eq_false_iff_not]
        exact fun hh => hk hh.symm
      have hone : List.find? (fun p => p.1 = k') [(k, v)] = none := by
        simp [List.find?, hkk]
      rw [hone, if_neg hk]
      simp

theorem dictGet?_insert_self (d : List (String × α)) (k : String) (v : α) :
    dictGet? (dictInsert d k v) k = some v := by
  rw [dictGet?_insert, if_pos rfl]

theorem dictGet?_insert_ne (d : List (String × α)) (k k' : String) (v : α)
    (h : k' ≠ k) : dictGet? (dictInsert d k v) k' = dictGet? d k' := by
  rw [dictGet?_insert, if_neg h]

theorem dictContains_of_mem {d : List (String × α)} {p : String × α}
    (h : p ∈ d) : dictContains d p.1 = true := by
  unfold dictContains
  simp only [List.any_eq_true, decide_eq_true_eq]
  exact ⟨p, h, rfl⟩

theorem dictGet?_eq_some_of_mem {d : List (String × α)} {p : String × α}
    (hnd : (dictKeys d).Nodup) (h : p ∈ d) : dictGet? d p.1 = some p.2 := by
  induction d with
  | nil => simp at h
  | cons q rest ih =>
    simp only [dictKeys, List.map_cons, List.nodup_cons] at hnd
    rcases List.mem_cons.mp h with h | h
    · subst h
      simp [dictGet?, List.find?]
    · have hq : ¬ q.1 = p.1 := by
        intro he
        exact hnd.1 (he ▸ (List.mem_map.mpr ⟨p, h, rfl⟩))
      have := ih hnd.2 h
      simpa [dictGet?, List.find?, hq] using this

theorem dictKeys_insert_nodup (d : List (String × α)) (k : String) (v : α)
    (h : (dictKeys d).Nodup) : (dictKeys (dictInsert d k v)).Nodup := by
  unfold dictInsert
  by_cases hc : d.any (fun p => p.1 = k)
  · rw [if_pos hc]
    have heq : dictKeys (d.map fun p => if p.1 = k then (k, v) else p) = dictKeys d := by
      unfold dictKeys
      rw [List.map_map]
      apply List.map_congr_left
      intro p _
      by_cases hp : p.1 = k
      · simp [Function.comp, hp]
      · simp [Function.comp, hp]
    rw [heq]; exact h
  · rw [if_neg hc]
    unfold dictKeys
    rw [List.map_append]
    simp only [List.map_cons, List.map_nil]
    apply List.Nodup.append h (List.nodup_singleton k)
    intro a ha hb
    simp only [List.mem_singleton] at hb
    subst hb
    simp only [List.any_eq_true, decide_eq_true_eq, not_exists, not_and] at hc
    rcases List.mem_map.mp ha with ⟨p, hp, hpk⟩
    exact hc p hp hpk

theorem dictGet?_isSome_iff_contains (d : List (String × α)) (k : String) :
    (dictGet? d k).isSome = dictContains d k := by
  induction d with
  | nil => simp [dictGet?, dictContains]
  | cons p rest ih =>
    by_cases hp : p.1 = k
    · simp [dictGet?, dictContains, List.find?, hp]
    · simp only [dictGet?, dictContains, List.find?, List.any_cons] at ih ⊢
      simp [hp, ih]

theorem dictGet?_remove (d : List (String × α)) (k k' : String) :
    dictGet? (dictRemove d k) k' = if k' = k then none else dictGet? d k' := by
  induction d with
  | nil => simp [dictGet?, dictRemove]
  | cons p rest ih =>
    by_cases hp : p.1 = k
    · have hstep : dictRemove (p :: rest) k = dictRemove rest k := by
        simp [dictRemove, List.filter, hp]
      rw [hstep, ih]
      by_cases hk : k' = k
      · rw [if_pos hk, if_pos hk]
      · rw [if_neg hk, if_neg hk]
        have hp' : ¬ p.1 = k' := by rw [hp]; exact fun hh => hk hh.symm
        simp [dictGet?, List.find?, hp']
    · have hstep : dictRemove (p :: rest) k = p :: dictRemove rest k := by
        simp [dictRemove, List.filter, hp]
      rw [hstep]
      by_cases hpk' : p.1 = k'
      · by_cases hk : k' = k
        · exact absurd (hpk'.trans hk) hp
        · rw [if_neg hk]
          simp [dictGet?, List.find?, hpk']
      · have h1 : dictGet? (p :: dictRemove rest k) k' = dictGet? (dictRemove rest k) k' := by
          simp [dictGet?, List.find?, hpk']
        have h2 : dictGet? (p :: rest) k' = dictGet? rest k' := by
          simp [dictGet?, List.find?, hpk']
        rw [h1, h2, ih]

theorem countKey_insert_of_get_none (d : List (String × α)) (k : String) (v : α)
    (h : dictGet? d k = none) : countKey (dictInsert d k v) k = countKey d k + 1 := by
  have hc : d.any (fun p => p.1 = k) = false := by
    have hiff := dictGet?_isSome_iff_contains d k
    rw [h] at hiff
    simpa [dictContains] using hiff.symm
  unfold dictInsert
  rw [hc]
  simp only [Bool.false_eq_true, if_false]
  unfold countKey
  rw [List.countP_append]
  simp [List.countP_cons]

theorem countKey_eq_zero_of_get_none (d : List (String × α)) (k : String)
    (h : dictGet? d k = none) : countKey d k = 0 := by
  have hc : dictContains d k = false := by
    have hiff := dictGet?_isSome_iff_contains d k
    rw [h] at hiff
    exact hiff.symm
  unfold countKey
  rw [List.countP_eq_zero]
  intro p hp
  simp only [decide_eq_true_eq]
  intro he
  rw [← he] at hc
  rw [dictContains_of_mem hp] at hc
  exact Bool.true_eq_false.mp hc

theorem countKey_remove (d : List (String × α)) (k : String) :
    countKey (dictRemove d k) k = 0 := by
  unfold countKey dictRemove
  rw [List.countP_eq_zero]
  intro p hp
  simp only [List.mem_filter, decide_eq_true_eq] at hp
  simp only [decide_eq_true_eq]
  simpa using hp.2

theorem countKey_insert_ne (d : List (String × α)) (k k' : String) (v : α)
    (h : k' ≠ k) : countKey (dictInsert d k v) k' = countKey d k' := by
  unfold dictInsert
  by_cases hc : d.any (fun p => p.1 = k)
  · rw [if_pos hc]
    unfold countKey
    rw [List.countP_map]
    apply List.countP_congr
    intro p _
    simp only [Function.comp]
    by_cases hp : p.1 = k
    · have e1 : (if p.1 = k then (k, v) else p) = (k, v) := if_pos hp
      simp only [e1]
      simp [hp]
    · have e1 : (if p.1 = k then (k, v) else p) = p := if_neg hp
      simp only [e1]
  · rw [if_neg hc]
    unfold countKey
    rw [List.countP_append]
    have hkk : decide (((k, v) : String × α).1 = k') = false := by
      simp only [decide_eq_false_iff_not]
      exact fun hh => h hh.symm
    simp [List.countP_cons, hkk]

theorem pyffStatement_self (s : PyStmt) (oldImports newImports : ImportedNames) :
    pyffStatement s s oldImports newImports = none := by
  simp [pyffStatement]

theorem recordBody_self (oldImports newImports : ImportedNames) :
    ∀ (l : PyStmtList) (acc : List FIChange),
      recordBody oldImports newImports l l acc = acc
  | .nil, acc => rfl
  | .cons s ss, acc => by
    simp only [recordBody, pyffStatement_self]
    exact recordBody_self oldImports newImports ss acc

theorem compareImportUsage_self (n : PyStmt) (imports : ImportedNames) :
    compareImportUsage n n imports imports = none := by
  simp [compareImportUsage]

theorem pyffFunction_self (f : FunctionSummary) (imports : ImportedNames) :
    pyffFunction f f imports imports = none := by
  unfold pyffFunction
  rw [recordBody_self, compareImportUsage_self]
  simp

theorem extractFunctions_keys_nodup :
    ∀ (l : List PyStmt) (d : List (String × FunctionSummary)),
      (dictKeys d).Nodup → (dictKeys (extractFunctions d l)).Nodup
  | [], _, h => h
  | .funcDef n decs body :: rest, d, h =>
    extractFunctions_keys_nodup rest _ (dictKeys_insert_nodup d n _ h)
  | .classDef _ _ _ :: rest, d, h => extractFunctions_keys_nodup rest d h
  | .expr _ :: rest, d, h => extractFunctions_keys_nodup rest d h
  | .assign _ _ :: rest, d, h => extractFunctions_keys_nodup rest d h
  | .annAssign _ _ _ :: rest, d, h => extractFunctions_keys_nodup rest d h
  | .ret _ :: rest, d, h => extractFunctions_keys_nodup rest d h
  | .pass :: rest, d, h => extractFunctions_keys_nodup rest d h
  | .imprt _ :: rest, d, h => extractFunctions_keys_nodup rest d h
  | .importFrom _ _ :: rest, d, h => extractFunctions_keys_nodup rest d h

theorem pyffFunctions_self (b : PyStmtList) (imports : ImportedNames) :
    pyffFunctions b b imports imports = none := by
  unfold pyffFunctions
  have hnd : (dictKeys (extractFunctions [] b.toList)).Nodup :=
    extractFunctions_keys_nodup _ _ (by simp [dictKeys])
  have hchanged : (extractFunctions [] b.toList).filterMap (fun p =>
      match dictGet? (extractFunctions [] b.toList) p.1 with
      | some nv => (pyffFunction p.2 nv imports imports).map (fun c => (p.1, c))
      | none => none) = [] := by
    rw [List.filterMap_eq_nil]
    intro p hp
    rw [dictGet?_eq_some_of_mem hnd hp]
    simp [pyffFunction_self]
  have hnew : (extractFunctions [] b.toList).filter
      (fun p => !dictContains (extractFunctions [] b.toList) p.1) = [] := by
    rw [List.filter_eq_nil]
    intro p hp
    simp [dictContains_of_mem hp]
  dsimp only
  rw [hchanged, hnew]
  simp

theorem pyffClass_self (c : ClassSummary) (imports : ImportedNames) :
    pyffClass c c imports imports = none := by
  unfold pyffClass
  rw [pyffFunctions_self]
  simp [AttributesPyfference.toBool]

mutual

theorem classesExtractStmt_keys_nodup :
    ∀ (names : ImportedNames) (acc : List (String × ClassSummary)) (s : PyStmt)
      (acc' : List (String × ClassSummary)),
      classesExtractStmt names acc s = .ok acc' → (dictKeys acc).Nodup →
        (dictKeys acc').Nodup
  | names, acc, .classDef n bases body, acc', h, hnd => by
    simp only [classesExtractStmt] at h
    cases hbs : baseClassifyList names bases with
    | error e => rw [hbs] at h; simp at h
    | ok bs =>
      rw [hbs] at h
      dsimp only at h
      simp only [Except.ok.injEq] at h
      rw [← h]
      exact dictKeys_insert_nodup acc n _ hnd
  | names, acc, .funcDef fn fd body, acc', h, hnd =>
    classesExtractList_keys_nodup names acc body acc'
      (by simpa only [classesExtractStmt] using h) hnd
  | names, acc, .expr _, acc', h, hnd => by
    simp only [classesExtractStmt, Except.ok.injEq] at h
    rwa [← h]
  | names, acc, .assign _ _, acc', h, hnd => by
    simp only [classesExtractStmt, Except.ok.injEq] at h
    rwa [← h]
  | names, acc, .annAssign _ _ _, acc', h, hnd => by
    simp only [classesExtractStmt, Except.ok.injEq] at h
    rwa [← h]
  | names, acc, .ret _, acc', h, hnd => by
    simp only [classesExtractStmt, Except.ok.injEq] at h
    rwa [← h]
  | names, acc, .pass, acc', h, hnd => by
    simp only [classesExtractStmt, Except.ok.injEq] at h
    rwa [← h]
  | names, acc, .imprt _, acc', h, hnd => by
    simp only [classesExtractStmt, Except.ok.injEq] at h
    rwa [← h]
  | names, acc, .importFrom _ _, acc', h, hnd => by
    simp only [classesExtractStmt, Except.ok.injEq] at h
    rwa [← h]

theorem classesExtractList_keys_nodup :
    ∀ (names : ImportedNames) (acc : List (String × ClassSummary)) (l : PyStmtList)
      (acc' : List (String × ClassSummary)),
      classesExtractList names acc l = .ok acc' → (dictKeys acc).Nodup →
        (dictKeys acc').Nodup
  | names, acc, .nil, acc', h, hnd => by
    simp only [classesExtractList, Except.ok.injEq] at h
    rwa [← h]
  | names, acc, .cons s ss, acc', h, hnd => by
    simp only [classesExtractList] at h
    cases hs : classesExtractStmt names acc s with
    | error e => rw [hs] at h; simp at h
    | ok acc1 =>
      rw [hs] at h
      dsimp only at h
      exact classesExtractList_keys_nodup names acc1 ss acc' h
        (classesExtractStmt_keys_nodup names acc s acc1 hs hnd)

end

theorem pyffClasses_self (m : PyStmtList) (imports : ImportedNames)
    (oc : List (String × ClassSummary))
    (h : classesExtractList imports [] m = .ok oc) :
    pyffClasses m m imports imports = .ok none := by
  have hnd : (dictKeys oc).Nodup :=
    classesExtractList_keys_nodup imports [] m oc h (by simp [dictKeys])
  have hchanged : oc.filterMap (fun p =>
      match dictGet? oc p.1 with
      | some nv => (pyffClass p.2 nv imports imports).map (fun c => (p.1, c))
      | none => none) = [] := by
    rw [List.filterMap_eq_nil]
    intro p hp
    rw [dictGet?_eq_some_of_mem hnd hp]
    simp [pyffClass_self]
  have hnew : (oc.filter (fun p => !dictContains oc p.1)).map (·.2) = [] := by
    have hfil : oc.filter (fun p => !dictContains oc p.1) = [] := by
      rw [List.filter_eq_nil]
      intro p hp
      simp [dictContains_of_mem hp]
    rw [hfil]; rfl
  unfold pyffClasses
  rw [h]
  dsimp only
  rw [hchanged, hnew]
  simp

theorem compareRaw_self (ns : ImportedNames) :
    compareRaw ns ns = ⟨[], [], ⟨[], [], [], []⟩, [], []⟩ := by
  have h1 : ns.names.filter (fun p => !dictContains ns.names p.1 && p.2.isImport) = [] := by
    rw [List.filter_eq_nil]
    intro p hp
    simp [dictContains_of_mem hp]
  have h2 : ns.names.filter (fun p =>
      !dictContains ns.names p.1 && p.2.isImportFrom && p.2.moduleOf ≠ "") = [] := by
    rw [List.filter_eq_nil]
    intro p hp
    simp [dictContains_of_mem hp]
  have h3 : ns.fromModules.filter (fun m => m ∉ ns.fromModules) = [] := by
    rw [List.filter_eq_nil]
    intro m hm
    simp [hm]
  unfold compareRaw
  rw [h1, h2, h3]
  simp [buildFromMap]

theorem compare_self (ns : ImportedNames) : ImportedNames.compare ns ns = .ok none := by
  unfold ImportedNames.compare
  rw [compareRaw_self]
  rfl

theorem pyffImports_self (m : PyStmtList) : pyffImports m m = .ok none :=
  compare_self _

theorem pyffModule_self (m : PyStmtList) (oc : List (String × ClassSummary))
    (h : classesExtractList (ImportedNames.extract m) [] m = .ok oc) :
    pyffModule m m = .ok none := by
  have h1 : pyffImports m m = .ok none := pyffImports_self m
  have h2 : pyffClasses m m (ImportedNames.extract m) (ImportedNames.extract m)
      = .ok none := pyffClasses_self m _ oc h
  simp [pyffModule, h1, h2, pyffFunctions_self]

/-- C4: the claim fails as stated: diffing a parseable module against
itself is not always `None` — a module whose class has a dotted base
crashes the class extractor, so `pyff_module` raises instead of returning
`None`. -/
theorem c4_idempotence_counterexample :
    pyffModule
      (.cons (.classDef "C" (.cons (.attr (.name "a") "B") .nil) .nil) .nil)
      (.cons (.classDef "C" (.cons (.attr (.name "a") "B") .nil) .nil) .nil)
      = .error "AttributeError: base node has no field id" := by
  rfl

/-- C4 (amended): diffing X against itself yields an absent result at every
level — unconditionally for statements and functions, and for modules
whenever class extraction succeeds on the module (it fails only on
non-plain-name base classes). -/
theorem c4_idempotence_amended :
    (∀ (s : PyStmt) (i1 i2 : ImportedNames), pyffStatement s s i1 i2 = none)
    ∧ (∀ (f : FunctionSummary) (i : ImportedNames), pyffFunction f f i i = none)
    ∧ (∀ (m : PyStmtList) (oc : List (String × ClassSummary)),
        classesExtractList (ImportedNames.extract m) [] m = .ok oc →
        pyffModule m m = .ok none) :=
  ⟨pyffStatement_self, pyffFunction_self, fun m oc h => pyffModule_self m oc h⟩

/-- Witness for C4 at concrete inputs. -/
theorem c4_idempotence_witness :
    pyffStatement .pass .pass ImportedNames.empty ImportedNames.empty = none
    ∧ pyffModule (.cons (.funcDef "f" .nil (.cons .pass .nil)) .nil)
        (.cons (.funcDef "f" .nil (.cons .pass .nil)) .nil) = .ok none :=
  ⟨c4_idempotence_amended.1 .pass ImportedNames.empty ImportedNames.empty,
   c4_idempotence_amended.2.2 (.cons (.funcDef "f" .nil (.cons .pass .nil)) .nil) []
     (by rfl)⟩

/-- C5: the canonical name of an imported name is the full dotted path and
is invariant under local aliasing: `import X as z` and `import X` both
canonicalize to `X` (for a dotted module path `X` this is the whole path),
and `from M import N as z` canonicalizes to `M.N`. -/
theorem c5_canonical_name (X z M N : String) (ls : List PyAlias) (ns : ImportedNames) :
    ((dictGet? ((ns.addName ⟨X, some z⟩ (.direct ls)).names) z).map
        ImportedName.canonicalName = some X)
    ∧ ((dictGet? ((ns.addName ⟨X, none⟩ (.direct ls)).names) X).map
        ImportedName.canonicalName = some X)
    ∧ ((dictGet? ((ns.addName ⟨N, some z⟩ (.fromModule M ls)).names) z).map
        ImportedName.canonicalName = some (M ++ "." ++ N)) := by
  refine ⟨?_, ?_, ?_⟩ <;>
    simp [ImportedNames.addName, dictGet?_insert_self, ImportedName.canonicalName]

/-- C6: rendering a class summary fails with the explicit multiple
inheritance error exactly when it has two or more base classes, renders
without error otherwise, and computing a diff involving the summary
succeeds regardless (here: the self diff, which is absent). -/
theorem c6_multiple_inheritance (s : ClassSummary) (i : ImportedNames) :
    (2 ≤ s.numBases → s.toText = .error "Multiple inheritance not yet implemented")
    ∧ (s.numBases ≤ 1 → ∃ t, s.toText = .ok t)
    ∧ pyffClass s s i i = none := by
  refine ⟨?_, ?_, pyffClass_self s i⟩
  · intro h2
    unfold ClassSummary.numBases at h2
    unfold ClassSummary.toText
    cases hbc : s.baseclasses with
    | none => rw [hbc] at h2; simp at h2
    | some l =>
      rw [hbc] at h2
      dsimp only at h2
      match l, h2 with
      | b1 :: b2 :: rest, _ => rfl
      | [], h2 => simp at h2
      | [b], h2 => simp at h2
  · intro h1
    unfold ClassSummary.numBases at h1
    unfold ClassSummary.toText
    cases hbc : s.baseclasses with
    | none => exact ⟨_, rfl⟩
    | some l =>
      rw [hbc] at h1
      dsimp only at h1
      match l, h1 with
      | [], _ => exact ⟨_, rfl⟩
      | [b], _ => exact ⟨_, rfl⟩
      | b1 :: b2 :: rest, h1 => simp at h1

/-- Witness for C6 at concrete summaries (two bases / one base). -/
theorem c6_multiple_inheritance_witness :
    (ClassSummary.toText ⟨∅, .classDef "C" .nil .nil, ∅,
        some [.localBase "A", .localBase "B"]⟩
      = .error "Multiple inheritance not yet implemented")
    ∧ (∃ t, ClassSummary.toText ⟨∅, .classDef "C" .nil .nil, ∅,
        some [.localBase "A"]⟩ = .ok t) :=
  ⟨(c6_multiple_inheritance ⟨∅, .classDef "C" .nil .nil, ∅,
      some [.localBase "A", .localBase "B"]⟩ ImportedNames.empty).1 (by simp [ClassSummary.numBases]),
   (c6_multiple_inheritance ⟨∅, .classDef "C" .nil .nil, ∅,
      some [.localBase "A"]⟩ ImportedNames.empty).2.1 (by simp [ClassSummary.numBases])⟩

/-- C8: the code violates the claim: `ClassesPyfference.simplify` consults
only `new`, so a diff whose changed-class mapping is non-empty but has no
new classes simplifies to `None` even though it carries a recorded
change. -/
theorem c8_classes_simplify_drops_changed :
    ClassesPyfference.simplify
        ⟨[], [("C", (⟨"C", ⟨∅, ∅⟩, none⟩ : ClassPyfference))]⟩ = none
    ∧ ([("C", (⟨"C", ⟨∅, ∅⟩, none⟩ : ClassPyfference))]
        : List (String × ClassPyfference)) ≠ [] := by
  exact ⟨rfl, by simp⟩

theorem baseClassifyList_error (names : ImportedNames) :
    ∀ (bases : PyExprList) (v : PyExpr) (a : String),
      (PyExpr.attr v a) ∈ bases.toList →
      ∃ e, baseClassifyList names bases = .error e
  | .nil, v, a, h => absurd h (by simp [PyExprList.toList])
  | .cons b bs, v, a, h => by
    rcases List.mem_cons.mp (by simpa [PyExprList.toList] using h) with hb | hb
    · exact ⟨"AttributeError: base node has no field id",
        by simp [baseClassifyList, ← hb, baseClassify]⟩
    · cases hc : baseClassify names b with
      | error e => exact ⟨e, by simp [baseClassifyList, hc]⟩
      | ok c =>
        obtain ⟨e, he⟩ := baseClassifyList_error names bs v a hb
        exact ⟨e, by simp [baseClassifyList, hc, he]⟩

/-- C10: class extraction supports only plain-name bases: visiting a class
definition one of whose bases is a dotted attribute access raises (the
extractor reads `base.id` unconditionally) instead of classifying it. -/
theorem c10_dotted_base_raises (names : ImportedNames)
    (acc : List (String × ClassSummary)) (n : String) (bases : PyExprList)
    (body : PyStmtList) (v : PyExpr) (a : String)
    (h : (PyExpr.attr v a) ∈ bases.toList) :
    ∃ e, classesExtractStmt names acc (.classDef n bases body) = .error e := by
  obtain ⟨e, he⟩ := baseClassifyList_error names bases v a h
  exact ⟨e, by simp [classesExtractStmt, he]⟩

/-- Witness for C10 at the concrete class `class C(mod.Base): pass`. -/
theorem c10_dotted_base_witness :
    ((PyExpr.attr (.name "mod") "Base")
        ∈ (PyExprList.cons (.attr (.name "mod") "Base") .nil).toList)
    ∧ ∃ e, classesExtractStmt ImportedNames.empty []
        (.classDef "C" (.cons (.attr (.name "mod") "Base") .nil)
          (.cons .pass .nil)) = .error e :=
  ⟨by simp [PyExprList.toList],
   c10_dotted_base_raises ImportedNames.empty [] "C" _ _ (.name "mod") "Base"
     (by simp [PyExprList.toList])⟩

/-- C7: the claim fails as stated: with more than one top-level statement
(two function definitions) in the old text, `pyff_function_code` does not
fail — it silently compares the most recently defined function (`b`)
against the new one. -/
theorem c7_exactly_one_counterexample :
    pyffFunctionCode
      (.cons (.funcDef "a" .nil (.cons .pass .nil))
        (.cons (.funcDef "b" .nil (.cons .pass .nil)) .nil))
      (.cons (.funcDef "c" .nil (.cons .pass .nil)) .nil)
      ImportedNames.empty ImportedNames.empty
      = .ok (some ⟨"c", some "b", []⟩) := by
  rfl

/-- C7 (amended): with exactly one top-level function on each side the
helper returns their comparison; it fails with the descriptive error when a
side contributes no function at all (zero statements, or only non-function
statements); it does not reject multiple top-level statements — the last
recorded function is used. -/
theorem c7_exactly_one_amended :
    (∀ (n1 n2 : String) (d1 d2 : PyExprList) (b1 b2 : PyStmtList)
        (i1 i2 : ImportedNames),
      pyffFunctionCode (.cons (.funcDef n1 d1 b1) .nil)
          (.cons (.funcDef n2 d2 b2) .nil) i1 i2
        = .ok (pyffFunction (mkFunctionSummary n1 d1 b1)
            (mkFunctionSummary n2 d2 b2) i1 i2))
    ∧ (∀ (old new : PyStmtList) (i1 i2 : ImportedNames),
        extractFunctions [] old.toList = [] →
        pyffFunctionCode old new i1 i2
          = .error "Old module does not seem to contain exactly one function code")
    ∧ (∀ (n1 : String) (d1 : PyExprList) (b1 : PyStmtList) (new : PyStmtList)
        (i1 i2 : ImportedNames),
        extractFunctions [] new.toList = [] →
        pyffFunctionCode (.cons (.funcDef n1 d1 b1) .nil) new i1 i2
          = .error "Old module does not seem to contain exactly one function code") := by
  refine ⟨?_, ?_, ?_⟩
  · intro n1 n2 d1 d2 b1 b2 i1 i2
    rfl
  · intro old new i1 i2 h
    simp [pyffFunctionCode, h, popItem]
  · intro n1 d1 b1 new i1 i2 h
    simp [pyffFunctionCode, PyStmtList.toList, extractFunctions, dictInsert,
      popItem, h]

/-- Witness for C7 at concrete inputs. -/
theorem c7_exactly_one_witness :
    pyffFunctionCode (.cons .pass .nil) (.cons (.funcDef "g" .nil .nil) .nil)
        ImportedNames.empty ImportedNames.empty
      = .error "Old module does not seem to contain exactly one function code" :=
  c7_exactly_one_amended.2.1 (.cons .pass .nil)
    (.cons (.funcDef "g" .nil .nil) .nil) ImportedNames.empty ImportedNames.empty
    (by rfl)

theorem pySetAdd_countP_le (P : FIChange → Bool)
    (hP : ∀ x y : FIChange, P x = true → P y = true →
      y.tag = x.tag ∧ FIChange.pyEq y x = true)
    (l : List FIChange) (x : FIChange) (h : l.countP P ≤ 1) :
    (pySetAdd l x).countP P ≤ 1 := by
  unfold pySetAdd
  split
  · exact h
  · rename_i hany
    rw [List.countP_append]
    by_cases hx : P x = true
    · have hzero : l.countP P = 0 := by
        by_contra hne
        have hpos : 0 < l.countP P := Nat.pos_of_ne_zero hne
        obtain ⟨y, hy, hPy⟩ := List.countP_pos.mp hpos
        obtain ⟨ht, he⟩ := hP x y hx hPy
        exact hany (List.any_eq_true.mpr ⟨y, hy, by simp [ht, he]⟩)
      simp [hzero, List.countP_cons, hx]
    · have hx0 : List.countP P [x] = 0 := by simp [List.countP_cons, hx]
      rw [hx0]
      omega

theorem recordBody_countP (P : FIChange → Bool)
    (hP : ∀ x y : FIChange, P x = true → P y = true →
      y.tag = x.tag ∧ FIChange.pyEq y x = true) (i1 i2 : ImportedNames) :
    ∀ (l1 l2 : PyStmtList) (acc : List FIChange), acc.countP P ≤ 1 →
      (recordBody i1 i2 l1 l2 acc).countP P ≤ 1
  | .nil, .nil, _, h => h
  | .nil, .cons _ _, acc, h => pySetAdd_countP_le P hP acc .generic h
  | .cons _ _, .nil, acc, h => pySetAdd_countP_le P hP acc .generic h
  | .cons o os, .cons n ns, acc, h => by
    cases hs : pyffStatement o n i1 i2 with
    | none =>
      simp only [recordBody, hs]
      exact recordBody_countP P hP i1 i2 os ns acc h
    | some c =>
      simp only [recordBody, hs]
      split
      · exact recordBody_countP P hP i1 i2 os ns _
          (pySetAdd_countP_le P hP acc (.stmtChange c) h)
      · exact recordBody_countP P hP i1 i2 os ns _
          (pySetAdd_countP_le P hP acc .generic h)

theorem stmtChange_hP : ∀ x y : FIChange, FIChange.isStmtChange x = true →
    FIChange.isStmtChange y = true → y.tag = x.tag ∧ FIChange.pyEq y x = true := by
  intro x y hx hy
  cases x <;> simp [FIChange.isStmtChange] at hx
  cases y <;> simp [FIChange.isStmtChange] at hy
  exact ⟨rfl, rfl⟩

theorem generic_hP : ∀ x y : FIChange, FIChange.isGeneric x = true →
    FIChange.isGeneric y = true → y.tag = x.tag ∧ FIChange.pyEq y x = true := by
  intro x y hx hy
  cases x <;> simp [FIChange.isGeneric] at hx
  cases y <;> simp [FIChange.isGeneric] at hy
  exact ⟨rfl, rfl⟩

/-- C9: every wrapped statement-change record hashes and compares equal to
every other one regardless of content (hash is the class-fixed tag, `__eq__`
is an `isinstance` check), generic records likewise; consequently any
function diff carries at most one wrapped statement change and at most one
generic change. -/
theorem c9_change_records_collapse :
    (∀ c1 c2 : StatementPyfference,
      (FIChange.stmtChange c1).tag = (FIChange.stmtChange c2).tag
      ∧ FIChange.pyEq (.stmtChange c1) (.stmtChange c2) = true)
    ∧ FIChange.pyEq .generic .generic = true
    ∧ (∀ (old new : FunctionSummary) (i1 i2 : ImportedNames) (d : FunctionPyfference),
        pyffFunction old new i1 i2 = some d →
        d.implementation.countP FIChange.isStmtChange ≤ 1
        ∧ d.implementation.countP FIChange.isGeneric ≤ 1) := by
  refine ⟨fun c1 c2 => ⟨rfl, rfl⟩, rfl, ?_⟩
  intro old new i1 i2 d h
  unfold pyffFunction at h
  have h1 : (recordBody i1 i2 old.node.bodyOf new.node.bodyOf []).countP
      FIChange.isStmtChange ≤ 1 :=
    recordBody_countP _ stmtChange_hP i1 i2 _ _ [] (by simp)
  have h2 : (recordBody i1 i2 old.node.bodyOf new.node.bodyOf []).countP
      FIChange.isGeneric ≤ 1 :=
    recordBody_countP _ generic_hP i1 i2 _ _ [] (by simp)
  cases hc : compareImportUsage old.node new.node i1 i2 with
  | none =>
    rw [hc] at h
    dsimp only at h
    set onm := (if old.name ≠ new.name then some old.name else none) with honm
    split at h
    · exact absurd h (by simp)
    · rw [Option.some.injEq] at h
      rw [← h]
      exact ⟨h1, h2⟩
  | some c =>
    rw [hc] at h
    dsimp only at h
    set onm := (if old.name ≠ new.name then some old.name else none) with honm
    split at h
    · exact absurd h (by simp)
    · rw [Option.some.injEq] at h
      rw [← h]
      exact ⟨pySetAdd_countP_le _ stmtChange_hP _ c h1,
        pySetAdd_countP_le _ generic_hP _ c h2⟩

/-- Witness for C9 at a concrete renamed function pair. -/
theorem c9_change_records_witness :
    (⟨"g", some "f", []⟩ : FunctionPyfference).implementation.countP
        FIChange.isStmtChange ≤ 1
    ∧ (⟨"g", some "f", []⟩ : FunctionPyfference).implementation.countP
        FIChange.isGeneric ≤ 1 :=
  c9_change_records_collapse.2.2
    (mkFunctionSummary "f" .nil (.cons .pass .nil))
    (mkFunctionSummary "g" .nil (.cons .pass .nil))
    ImportedNames.empty ImportedNames.empty ⟨"g", some "f", []⟩ (by rfl)

theorem mem_pySetAdd {y : FIChange} {l : List FIChange} {x : FIChange}
    (h : y ∈ pySetAdd l x) : y ∈ l ∨ y = x := by
  unfold pySetAdd at h
  split at h
  · exact Or.inl h
  · rcases List.mem_append.mp h with h | h
    · exact Or.inl h
    · exact Or.inr (List.mem_singleton.mp h)

theorem mem_pySetAdd_of_mem {y : FIChange} {l : List FIChange} (x : FIChange)
    (h : y ∈ l) : y ∈ pySetAdd l x := by
  unfold pySetAdd
  split
  · exact h
  · exact List.mem_append_left _ h

theorem generic_mem_pySetAdd_generic (l : List FIChange) :
    FIChange.generic ∈ pySetAdd l .generic := by
  unfold pySetAdd
  split
  · rename_i hany
    obtain ⟨y, hy, hprop⟩ := List.any_eq_true.mp hany
    have : y = .generic := by
      cases y <;> simp [FIChange.tag, FIChange.pyEq] at hprop ⊢
    rwa [← this]
  · exact List.mem_append_right _ (List.mem_singleton.mpr rfl)

theorem pySetAdd_nil (x : FIChange) : pySetAdd [] x = [x] := rfl

theorem compareImportUsage_some_shape {o n : PyStmt} {i1 i2 : ImportedNames}
    {c : FIChange} (h : compareImportUsage o n i1 i2 = some c) :
    ∃ g a, c = FIChange.externalUsage g a := by
  unfold compareImportUsage at h
  dsimp only at h
  split at h
  · rw [Option.some.injEq] at h
    exact ⟨_, _, h.symm⟩
  · exact absurd h (by simp)

theorem implOf_if_branches (cond : Prop) [Decidable cond] (n : String)
    (o : Option String) (impl : List FIChange) :
    implOf (if cond then none else some ⟨n, o, impl⟩) = [] ∨
      implOf (if cond then none else some ⟨n, o, impl⟩) = impl := by
  split
  · exact Or.inl rfl
  · exact Or.inr rfl

/-- C1: the claim fails as stated: old statement `path` under
`from os import path` and new statement `os.path` under no imports
canonicalize to the same AST, yet no alias-change record is collected (the
canonical target is not in the other side's reference table), so the
statement diff is empty/unexplained and `pyff_function` records a generic
"semantics changed" change for the pair. -/
theorem c1_alias_invariance_counterexample :
    ((fqStmt (ImportedNames.extract (.cons (.importFrom "os" [⟨"path", none⟩]) .nil))
        (.expr (.name "path")) .init).1
      = (fqStmt ImportedNames.empty (.expr (.attr (.name "os") "path")) .init).1)
    ∧ pyffStatement (.expr (.name "path")) (.expr (.attr (.name "os") "path"))
        (ImportedNames.extract (.cons (.importFrom "os" [⟨"path", none⟩]) .nil))
        ImportedNames.empty = some ⟨∅, ∅⟩
    ∧ FIChange.generic ∈ implOf (pyffFunction
        (mkFunctionSummary "f" .nil (.cons (.expr (.name "path")) .nil))
        (mkFunctionSummary "f" .nil (.cons (.expr (.attr (.name "os") "path")) .nil))
        (ImportedNames.extract (.cons (.importFrom "os" [⟨"path", none⟩]) .nil))
        ImportedNames.empty) := by
  refine ⟨by rfl, by rfl, ?_⟩
  decide

/-- C1 (amended): when canonicalization makes the two statements
structurally identical and at least one collected substitution matches the
other side's reference table (the collected alias-change set is non-empty),
`pyff_statement` reports exactly that alias change as semantically
irrelevant, no relevant change, and `pyff_function` never records a generic
"semantics changed" change for the pair. -/
theorem c1_alias_invariance_amended (s1 s2 : PyStmt) (i1 i2 : ImportedNames)
    (hfq : (fqStmt i1 s1 .init).1 = (fqStmt i2 s2 .init).1)
    (hch : matchChanges s1 s2 i1 i2 ≠ ∅) :
    (s1 ≠ s2 → ∃ p, pyffStatement s1 s2 i1 i2 = some p
        ∧ p.semanticallyRelevant = ∅
        ∧ p.semanticallyIrrelevant = {matchChanges s1 s2 i1 i2}
        ∧ p.isSpecific = true ∧ p.semanticallyDifferent = false)
    ∧ (∀ (n1 n2 : String) (d1 d2 : PyExprList) (pr1 pr2 : Bool),
        FIChange.generic ∉ implOf (pyffFunction
          ⟨n1, .funcDef n1 d1 (.cons s1 .nil), pr1⟩
          ⟨n2, .funcDef n2 d2 (.cons s2 .nil), pr2⟩ i1 i2)) := by
  have hfind : s1 ≠ s2 →
      findExternalNameMatches s1 s2 i1 i2 = some (matchChanges s1 s2 i1 i2) := by
    intro hne
    unfold findExternalNameMatches
    rw [if_neg hne, if_neg hch]
  have hstmt : s1 ≠ s2 →
      pyffStatement s1 s2 i1 i2 = some ⟨∅, {matchChanges s1 s2 i1 i2}⟩ := by
    intro hne
    unfold pyffStatement
    rw [if_neg hne, hfind hne]
  constructor
  · intro hne
    refine ⟨⟨∅, {matchChanges s1 s2 i1 i2}⟩, hstmt hne, rfl, rfl, ?_, ?_⟩
    · simp [StatementPyfference.isSpecific]
    · simp [StatementPyfference.semanticallyDifferent]
  · intro n1 n2 d1 d2 pr1 pr2
    unfold pyffFunction
    dsimp only [PyStmt.bodyOf]
    have hrec : FIChange.generic ∉
        recordBody i1 i2 (.cons s1 .nil) (.cons s2 .nil) [] := by
      by_cases hne : s1 = s2
      · rw [hne, recordBody_self]
        simp
      · have hspec : StatementPyfference.isSpecific
            ⟨∅, {matchChanges s1 s2 i1 i2}⟩ = true := by
          simp [StatementPyfference.isSpecific]
        simp only [recordBody, hstmt hne, hspec, if_true, pySetAdd_nil]
        intro hmem
        simp at hmem
    have himpl : ∀ (onm : Option String) (impl : List FIChange),
        FIChange.generic ∉ impl →
        FIChange.generic ∉ implOf
          (if onm = none ∧ impl = [] then none
           else some ⟨n2, onm, impl⟩) := by
      intro onm impl hmem
      split
      · simp [implOf]
      · exact hmem
    cases hc : compareImportUsage (PyStmt.funcDef n1 d1 (.cons s1 .nil))
        (PyStmt.funcDef n2 d2 (.cons s2 .nil)) i1 i2 with
    | none =>
      dsimp only
      exact himpl _ _ hrec
    | some c =>
      dsimp only
      obtain ⟨g, a, hcs⟩ := compareImportUsage_some_shape hc
      refine himpl _ _ ?_
      intro hmem
      rcases mem_pySetAdd hmem with h | h
      · exact hrec h
      · rw [hcs] at h; exact absurd h (by simp)

/-- Witness for C1 at the alias pair `path` / `pathy`. -/
theorem c1_alias_invariance_witness :
    ∃ p, pyffStatement (.expr (.name "path")) (.expr (.name "pathy"))
        (ImportedNames.extract (.cons (.importFrom "os" [⟨"path", none⟩]) .nil))
        (ImportedNames.extract (.cons (.importFrom "os" [⟨"path", some "pathy"⟩]) .nil))
        = some p
      ∧ p.semanticallyRelevant = ∅
      ∧ p.semanticallyIrrelevant = {matchChanges (.expr (.name "path"))
          (.expr (.name "pathy"))
          (ImportedNames.extract (.cons (.importFrom "os" [⟨"path", none⟩]) .nil))
          (ImportedNames.extract (.cons (.importFrom "os" [⟨"path", some "pathy"⟩]) .nil))}
      ∧ p.isSpecific = true ∧ p.semanticallyDifferent = false :=
  (c1_alias_invariance_amended (.expr (.name "path")) (.expr (.name "pathy"))
      (ImportedNames.extract (.cons (.importFrom "os" [⟨"path", none⟩]) .nil))
      (ImportedNames.extract (.cons (.importFrom "os" [⟨"path", some "pathy"⟩]) .nil))
      (by rfl) (by decide)).1 (by decide)

/-- C3: the claim fails as stated: a pair of well-formed modules can crash
the diff: the reduction pass raises a `KeyError` when the old module's
`from P import y` name survives in the new module while `import P` is
added. -/
theorem c3_no_throw_counterexample :
    pyffModule (.cons (.importFrom "P" [⟨"y", none⟩]) .nil)
      (.cons (.imprt [⟨"P", none⟩]) (.cons (.importFrom "Q" [⟨"y", none⟩]) .nil))
      = .error "KeyError: P" := by
  rfl

/-- C3 (amended): the module diff completes whenever import comparison and
class extraction raise no error, and a statement pair that differs without
an alias explanation is represented as a generic "semantics changed" record
in the result, not as a thrown error. -/
theorem c3_no_throw_amended :
    (∀ (old new : PyStmtList),
      (pyffImports old new).isOk = true →
      (pyffClasses old new (ImportedNames.extract old)
        (ImportedNames.extract new)).isOk = true →
      (pyffModule old new).isOk = true)
    ∧ (∀ (s1 s2 : PyStmt) (i1 i2 : ImportedNames) (n1 n2 : String)
        (d1 d2 : PyExprList) (pr1 pr2 : Bool),
        s1 ≠ s2 → findExternalNameMatches s1 s2 i1 i2 = none →
        FIChange.generic ∈ implOf (pyffFunction
          ⟨n1, .funcDef n1 d1 (.cons s1 .nil), pr1⟩
          ⟨n2, .funcDef n2 d2 (.cons s2 .nil), pr2⟩ i1 i2)) := by
  constructor
  · intro old new h1 h2
    unfold pyffModule
    dsimp only
    cases hi : pyffImports old new with
    | error e => rw [hi] at h1; simp [Except.isOk, Except.toBool] at h1
    | ok imports =>
      cases hcl : pyffClasses old new (ImportedNames.extract old)
          (ImportedNames.extract new) with
      | error e => rw [hcl] at h2; simp [Except.isOk, Except.toBool] at h2
      | ok classes =>
        dsimp only
        split
        · simp [Except.isOk, Except.toBool]
        · simp [Except.isOk, Except.toBool]
  · intro s1 s2 i1 i2 n1 n2 d1 d2 pr1 pr2 hne hnone
    unfold pyffFunction
    dsimp only [PyStmt.bodyOf]
    have hstmt : pyffStatement s1 s2 i1 i2 = some ⟨∅, ∅⟩ := by
      unfold pyffStatement
      rw [if_neg hne, hnone]
    have hspec : StatementPyfference.isSpecific ⟨∅, ∅⟩ = false := by
      simp [StatementPyfference.isSpecific]
    have hrec : FIChange.generic ∈
        recordBody i1 i2 (.cons s1 .nil) (.cons s2 .nil) [] := by
      simp only [recordBody, hstmt, hspec]
      simp only [Bool.false_eq_true, if_false]
      exact generic_mem_pySetAdd_generic _
    have himpl : ∀ (onm : Option String) (impl : List FIChange),
        FIChange.generic ∈ impl →
        FIChange.generic ∈ implOf
          (if onm = none ∧ impl = [] then none
           else some ⟨n2, onm, impl⟩) := by
      intro onm impl hmem
      split
      · rename_i hco
        exact absurd hco.2 (List.ne_nil_of_mem hmem)
      · exact hmem
    cases hc : compareImportUsage (PyStmt.funcDef n1 d1 (.cons s1 .nil))
        (PyStmt.funcDef n2 d2 (.cons s2 .nil)) i1 i2 with
    | none =>
      dsimp only
      exact himpl _ _ hrec
    | some c =>
      dsimp only
      exact himpl _ _ (mem_pySetAdd_of_mem c hrec)

/-- Witness for C3 at concrete inputs (spec scenario 2: `pass` versus
`return None`, with an import-compatible module pair for totality). -/
theorem c3_no_throw_witness :
    (pyffModule (.cons .pass .nil) (.cons (.funcDef "f" .nil (.cons .pass .nil)) .nil)).isOk
      = true
    ∧ FIChange.generic ∈ implOf (pyffFunction
        ⟨"f", .funcDef "f" .nil (.cons .pass .nil), false⟩
        ⟨"f", .funcDef "f" .nil (.cons (.ret (some (.const "None"))) .nil), false⟩
        ImportedNames.empty ImportedNames.empty) :=
  ⟨c3_no_throw_amended.1 (.cons .pass .nil)
      (.cons (.funcDef "f" .nil (.cons .pass .nil)) .nil) (by rfl) (by rfl),
   c3_no_throw_amended.2 .pass (.ret (some (.const "None")))
      ImportedNames.empty ImportedNames.empty "f" "f" .nil .nil false false
      (by decide) (by rfl)⟩

theorem reduceToImport_pres : ∀ (l : List ImportedName) (c c' : ImportsPyfference),
    reduceToImport l c = .ok c' →
    c'.removedImports = c.removedImports
    ∧ c'.changedToFromimport = c.changedToFromimport
    ∧ c'.fromimports.new = c.fromimports.new
    ∧ c'.fromimports.newModules = c.fromimports.newModules
  | [], c, c', h => by
    simp only [reduceToImport, Except.ok.injEq] at h
    rw [← h]
    exact ⟨rfl, rfl, rfl, rfl⟩
  | n :: rest, c, c', h => by
    simp only [reduceToImport] at h
    by_cases hcond : n.name ∈ c.fromimports.removedModules
    · rw [if_pos hcond] at h
      cases hg : dictGet? c.fromimports.removed n.name with
      | none => rw [hg] at h; simp at h
      | some names =>
        rw [hg] at h
        dsimp only at h
        obtain ⟨a1, a2, a3, a4⟩ := reduceToImport_pres rest _ c' h
        exact ⟨a1, a2, a3, a4⟩
    · rw [if_neg hcond] at h
      exact reduceToImport_pres rest c c' h

theorem reduceToImport_keys : ∀ (l : List ImportedName) (c c' : ImportsPyfference),
    reduceToImport l c = .ok c' → ∀ m,
    (dictGet? c'.changedToImport m).isSome = true →
    (dictGet? c.changedToImport m).isSome = true ∨ m ∈ l.map (·.name)
  | [], c, c', h, m, hm => by
    simp only [reduceToImport, Except.ok.injEq] at h
    rw [← h] at hm
    exact Or.inl hm
  | n :: rest, c, c', h, m, hm => by
    simp only [reduceToImport] at h
    by_cases hcond : n.name ∈ c.fromimports.removedModules
    · rw [if_pos hcond] at h
      cases hg : dictGet? c.fromimports.removed n.name with
      | none => rw [hg] at h; simp at h
      | some names =>
        rw [hg] at h
        dsimp only at h
        rcases reduceToImport_keys rest _ c' h m hm with hin | hin
        · by_cases hmn : m = n.name
          · exact Or.inr (by simp [hmn])
          · rw [dictGet?_insert_ne _ _ _ _ hmn] at hin
            exact Or.inl hin
        · exact Or.inr (by simp only [List.map_cons, List.mem_cons]; exact Or.inr hin)
    · rw [if_neg hcond] at h
      rcases reduceToImport_keys rest c c' h m hm with hin | hin
      · exact Or.inl hin
      · exact Or.inr (by simp only [List.map_cons, List.mem_cons]; exact Or.inr hin)

theorem reduceToImport_noM (M : String) : ∀ (l : List ImportedName)
    (c c' : ImportsPyfference), reduceToImport l c = .ok c' →
    (∀ n ∈ l, n.name ≠ M) →
    dictGet? c'.changedToImport M = dictGet? c.changedToImport M
    ∧ countKey c'.changedToImport M = countKey c.changedToImport M
    ∧ (M ∈ c'.fromimports.removedModules ↔ M ∈ c.fromimports.removedModules)
    ∧ dictGet? c'.fromimports.removed M = dictGet? c.fromimports.removed M
    ∧ (∀ n ∈ c'.newImports, n ∈ c.newImports)
  | [], c, c', h, _ => by
    simp only [reduceToImport, Except.ok.injEq] at h
    rw [← h]
    exact ⟨rfl, rfl, Iff.rfl, rfl, fun n hn => hn⟩
  | n :: rest, c, c', h, hno => by
    have hnM : n.name ≠ M := hno n (List.mem_cons_self n rest)
    have hMn : M ≠ n.name := fun he => hnM he.symm
    have hrest : ∀ x ∈ rest, x.name ≠ M := fun x hx => hno x (List.mem_cons_of_mem n hx)
    simp only [reduceToImport] at h
    by_cases hcond : n.name ∈ c.fromimports.removedModules
    · rw [if_pos hcond] at h
      cases hg : dictGet? c.fromimports.removed n.name with
      | none => rw [hg] at h; simp at h
      | some names =>
        rw [hg] at h
        dsimp only at h
        obtain ⟨e1, e2, e3, e4, e5⟩ := reduceToImport_noM M rest _ c' h hrest
        refine ⟨?_, ?_, ?_, ?_, ?_⟩
        · rw [e1]
          exact dictGet?_insert_ne _ _ _ _ hMn
        · rw [e2]
          exact countKey_insert_ne _ _ _ _ hMn
        · rw [e3]
          exact List.mem_erase_of_ne hMn
        · rw [e4]
          rw [dictGet?_remove _ _ _, if_neg hMn]
        · intro x hx
          exact List.mem_of_mem_erase (e5 x hx)
    · rw [if_neg hcond] at h
      exact reduceToImport_noM M rest c c' h hrest

theorem reduceToFromImport_pres : ∀ (l : List ImportedName) (c c' : ImportsPyfference),
    reduceToFromImport l c = .ok c' →
    c'.newImports = c.newImports
    ∧ c'.changedToImport = c.changedToImport
    ∧ c'.fromimports.removed = c.fromimports.removed
    ∧ c'.fromimports.removedModules = c.fromimports.removedModules
  | [], c, c', h => by
    simp only [reduceToFromImport, Except.ok.injEq] at h
    rw [← h]
    exact ⟨rfl, rfl, rfl, rfl⟩
  | n :: rest, c, c', h => by
    simp only [reduceToFromImport] at h
    by_cases hcond : n.name ∈ c.fromimports.newModules
    · rw [if_pos hcond] at h
      cases hg : dictGet? c.fromimports.new n.name with
      | none => rw [hg] at h; simp at h
      | some names =>
        rw [hg] at h
        dsimp only at h
        obtain ⟨a1, a2, a3, a4⟩ := reduceToFromImport_pres rest _ c' h
        exact ⟨a1, a2, a3, a4⟩
    · rw [if_neg hcond] at h
      exact reduceToFromImport_pres rest c c' h

theorem reduceToFromImport_keys : ∀ (l : List ImportedName) (c c' : ImportsPyfference),
    reduceToFromImport l c = .ok c' → ∀ m,
    (dictGet? c'.changedToFromimport m).isSome = true →
    (dictGet? c.changedToFromimport m).isSome = true ∨ m ∈ l.map (·.name)
  | [], c, c', h, m, hm => by
    simp only [reduceToFromImport, Except.ok.injEq] at h
    rw [← h] at hm
    exact Or.inl hm
  | n :: rest, c, c', h, m, hm => by
    simp only [reduceToFromImport] at h
    by_cases hcond : n.name ∈ c.fromimports.newModules
    · rw [if_pos hcond] at h
      cases hg : dictGet? c.fromimports.new n.name with
      | none => rw [hg] at h; simp at h
      | some names =>
        rw [hg] at h
        dsimp only at h
        rcases reduceToFromImport_keys rest _ c' h m hm with hin | hin
        · by_cases hmn : m = n.name
          · exact Or.inr (by simp [hmn])
          · rw [dictGet?_insert_ne _ _ _ _ hmn] at hin
            exact Or.inl hin
        · exact Or.inr (by simp only [List.map_cons, List.mem_cons]; exact Or.inr hin)
    · rw [if_neg hcond] at h
      rcases reduceToFromImport_keys rest c c' h m hm with hin | hin
      · exact Or.inl hin
      · exact Or.inr (by simp only [List.map_cons, List.mem_cons]; exact Or.inr hin)

theorem reduceToImport_main (M : String) (nM : ImportedName) :
    ∀ (l : List ImportedName) (c c' : ImportsPyfference),
    reduceToImport l c = .ok c' →
    nM ∈ l → nM.name = M → (l.map (·.name)).Nodup →
    M ∈ c.fromimports.removedModules → c.fromimports.removedModules.Nodup →
    dictGet? c.changedToImport M = none →
    (c.newImports.map (·.name)).Nodup → nM ∈ c.newImports →
    ∃ ns, dictGet? c.fromimports.removed M = some ns
      ∧ dictGet? c'.changedToImport M = some ns
      ∧ countKey c'.changedToImport M = 1
      ∧ M ∉ c'.fromimports.removedModules
      ∧ dictGet? c'.fromimports.removed M = none
      ∧ (∀ n ∈ c'.newImports, n.name ≠ M)
  | [], _, _, _, hmem, _, _, _, _, _, _, _ => absurd hmem (List.not_mem_nil nM)
  | n :: rest, c, c', h, hmem, hname, hln, hrm, hrmnd, hnone, hcn, hnMc => by
    simp only [reduceToImport] at h
    by_cases hcond : n.name ∈ c.fromimports.removedModules
    · rw [if_pos hcond] at h
      cases hg : dictGet? c.fromimports.removed n.name with
      | none => rw [hg] at h; simp at h
      | some names =>
        rw [hg] at h
        dsimp only at h
        by_cases hnm : n.name = M
        · have hn_eq : n = nM :=
            List.inj_on_of_nodup_map hln (List.mem_cons_self n rest) hmem
              (by rw [hnm, hname])
          have hgM : dictGet? c.fromimports.removed M = some names := by
            rw [← hnm]; exact hg
          have hrest : ∀ x ∈ rest, x.name ≠ M := by
            intro x hx he
            simp only [List.map_cons, List.nodup_cons] at hln
            exact hln.1 (by rw [hnm]; exact he ▸ List.mem_map.mpr ⟨x, hx, rfl⟩)
          obtain ⟨e1, e2, e3, e4, e5⟩ := reduceToImport_noM M rest _ c' h hrest
          refine ⟨names, hgM, ?_, ?_, ?_, ?_, ?_⟩
          · rw [e1]
            dsimp only
            rw [hnm]
            exact dictGet?_insert_self _ _ _
          · rw [e2]
            dsimp only
            rw [hnm, countKey_insert_of_get_none _ _ _ hnone,
              countKey_eq_zero_of_get_none _ _ hnone]
          · rw [e3]
            dsimp only
            rw [hnm]
            intro hmm
            exact ((List.Nodup.mem_erase_iff hrmnd).mp hmm).1 rfl
          · rw [e4]
            dsimp only
            rw [hnm, dictGet?_remove _ _ _, if_pos rfl]
          · intro x hx he
            have hx2 := e5 x hx
            dsimp only at hx2
            have hxm : x ∈ c.newImports := List.mem_of_mem_erase hx2
            have hx_eq : x = nM :=
              List.inj_on_of_nodup_map hcn hxm hnMc (by rw [he, hname])
            rw [hx_eq, hn_eq] at hx2
            exact (List.Nodup.mem_erase_iff (List.Nodup.of_map _ hcn)).mp hx2
              |>.1 rfl
        · have hn_ne : nM ≠ n := fun he => hnm (by rw [← he, hname])
          have hmem' : nM ∈ rest := by
            rcases List.mem_cons.mp hmem with he | hr
            · exact absurd he hn_ne
            · exact hr
          have hMn : M ≠ n.name := fun he => hnm he.symm
          obtain ⟨ns, g1, g2, g3, g4, g5, g6⟩ :=
            reduceToImport_main M nM rest _ c' h hmem' hname
              (by simp only [List.map_cons, List.nodup_cons] at hln; exact hln.2)
              (by dsimp only; exact (List.mem_erase_of_ne hMn).mpr hrm)
              (by dsimp only; exact List.Nodup.erase _ hrmnd)
              (by dsimp only; rw [dictGet?_insert_ne _ _ _ _ hMn]; exact hnone)
              (by
                dsimp only
                exact List.Nodup.sublist
                  (List.Sublist.map _ (List.erase_sublist n c.newImports)) hcn)
              (by dsimp only; exact (List.mem_erase_of_ne hn_ne).mpr hnMc)
          refine ⟨ns, ?_, g2, g3, g4, g5, g6⟩
          dsimp only at g1
          rw [dictGet?_remove _ _ _, if_neg hMn] at g1
          exact g1
    · rw [if_neg hcond] at h
      have hn_ne : nM ≠ n := by
        intro he
        rw [← he, hname] at hcond
        exact hcond hrm
      have hmem' : nM ∈ rest := by
        rcases List.mem_cons.mp hmem with he | hr
        · exact absurd he hn_ne
        · exact hr
      exact reduceToImport_main M nM rest c c' h hmem' hname
        (by simp only [List.map_cons, List.nodup_cons] at hln; exact hln.2)
        hrm hrmnd hnone hcn hnMc

theorem name_of_dictGet {ns : ImportedNames} {M : String} {nM : ImportedName}
    (hwf : ∀ p ∈ ns.names, p.2.name = p.1)
    (hM : dictGet? ns.names M = some nM) : nM.name = M := by
  unfold dictGet? at hM
  cases hf : ns.names.find? (fun p => p.1 = M) with
  | none => rw [hf] at hM; exact Option.noConfusion hM
  | some q =>
    rw [hf] at hM
    injection hM with hM
    have hq1 : q.1 = M := by simpa using List.find?_some hf
    rw [← hM, hwf q (List.mem_of_find?_eq_some hf), hq1]

theorem compareRaw_nM_mem {old new : ImportedNames} {M : String} {nM : ImportedName}
    (hM : dictGet? new.names M = some nM) (hdir : nM.isImport = true)
    (hMold : dictContains old.names M = false) :
    nM ∈ (compareRaw old new).newImports := by
  unfold compareRaw
  dsimp only
  unfold dictGet? at hM
  cases hf : new.names.find? (fun p => p.1 = M) with
  | none => rw [hf] at hM; exact Option.noConfusion hM
  | some q =>
    rw [hf] at hM
    injection hM with hM
    have hq1 : q.1 = M := by simpa using List.find?_some hf
    apply List.mem_map.mpr
    refine ⟨q, List.mem_filter.mpr ⟨List.mem_of_find?_eq_some hf, ?_⟩, hM⟩
    have hM2 : q.2 = nM := hM
    rw [hq1, hM2]
    simp [hMold, hdir]

theorem compareRaw_newImports_names {old new : ImportedNames}
    (hwfN : ∀ p ∈ new.names, p.2.name = p.1) :
    ∀ n ∈ (compareRaw old new).newImports,
      dictContains old.names n.name = false ∧ dictContains new.names n.name = true := by
  intro n hn
  unfold compareRaw at hn
  dsimp only at hn
  rcases List.mem_map.mp hn with ⟨p, hp, hpn⟩
  rcases List.mem_filter.mp hp with ⟨hpm, hcond⟩
  simp only [Bool.and_eq_true, Bool.not_eq_true'] at hcond
  have hname : n.name = p.1 := by rw [← hpn]; exact hwfN p hpm
  rw [hname]
  exact ⟨hcond.1, dictContains_of_mem hpm⟩

theorem compareRaw_removedImports_names {old new : ImportedNames}
    (hwfO : ∀ p ∈ old.names, p.2.name = p.1) :
    ∀ n ∈ (compareRaw old new).removedImports,
      dictContains new.names n.name = false ∧ dictContains old.names n.name = true := by
  intro n hn
  unfold compareRaw at hn
  dsimp only at hn
  rcases List.mem_map.mp hn with ⟨p, hp, hpn⟩
  rcases List.mem_filter.mp hp with ⟨hpm, hcond⟩
  simp only [Bool.and_eq_true, Bool.not_eq_true'] at hcond
  have hname : n.name = p.1 := by rw [← hpn]; exact hwfO p hpm
  rw [hname]
  exact ⟨hcond.1, dictContains_of_mem hpm⟩

theorem compareRaw_newImports_nodup {old new : ImportedNames}
    (hwfN : ∀ p ∈ new.names, p.2.name = p.1)
    (hndN : (new.names.map (·.1)).Nodup) :
    ((compareRaw old new).newImports.map (·.name)).Nodup := by
  unfold compareRaw
  dsimp only
  rw [List.map_map]
  have he : (new.names.filter
        (fun p => !dictContains old.names p.1 && p.2.isImport)).map
          ((fun n : ImportedName => n.name) ∘ (fun p : String × ImportedName => p.2))
      = (new.names.filter
        (fun p => !dictContains old.names p.1 && p.2.isImport)).map (·.1) := by
    apply List.map_congr_left
    intro p hp
    exact hwfN p (List.mem_filter.mp hp).1
  rw [he]
  exact List.Nodup.sublist (List.Sublist.map _ (List.filter_sublist _)) hndN

theorem compareRaw_changedToImport_nil (old new : ImportedNames) :
    (compareRaw old new).changedToImport = [] := rfl

theorem compareRaw_changedToFromimport_nil (old new : ImportedNames) :
    (compareRaw old new).changedToFromimport = [] := rfl

theorem dictGet?_isSome_ne_nil {d : List (String × α)} {k : String}
    (h : (dictGet? d k).isSome = true) : d.isEmpty = false := by
  cases d with
  | nil => simp [dictGet?] at h
  | cons p rest => rfl

/-- C2: the claim fails as stated: when the old module's `from M import x`
name `x` survives in the new module (bound by another import), the
comparison does not produce the upgrade record — it raises a `KeyError`
inside the reduction pass, so there is no diff at all. -/
theorem c2_upgrade_counterexample :
    pyffImports (.cons (.importFrom "M" [⟨"x", none⟩]) .nil)
      (.cons (.imprt [⟨"M", none⟩]) (.cons (.importFrom "N" [⟨"x", none⟩]) .nil))
      = .error "KeyError: M" := by
  rfl

/-- C2 (amended): whenever the comparison of two import models completes
without error, and the new model binds `M` by a direct import while the old
model did not bind `M` but had from-imports from `M` (and the new model has
none), the resulting diff carries exactly one "upgraded to direct import"
record for `M` holding exactly the raw removed-from-`M` names, `M` appears
in neither the raw from-import-removed map nor the raw new-direct-import
set, and no module is reported both in an upgrade and a downgrade record. -/
theorem c2_upgrade_amended (old new : ImportedNames) (M : String)
    (nM : ImportedName) (r : Option ImportsPyfference)
    (hwfN : ∀ p ∈ new.names, p.2.name = p.1)
    (hwfO : ∀ p ∈ old.names, p.2.name = p.1)
    (hndN : (new.names.map (·.1)).Nodup)
    (hndFO : old.fromModules.Nodup)
    (hM : dictGet? new.names M = some nM)
    (hdir : nM.isImport = true)
    (hMold : dictContains old.names M = false)
    (hMrm : M ∈ old.fromModules)
    (hMnew : M ∉ new.fromModules)
    (hok : ImportedNames.compare old new = .ok r) :
    ∃ d ns, r = some d
      ∧ dictGet? (compareRaw old new).fromimports.removed M = some ns
      ∧ dictGet? d.changedToImport M = some ns
      ∧ countKey d.changedToImport M = 1
      ∧ (∀ n ∈ d.newImports, n.name ≠ M)
      ∧ dictGet? d.fromimports.removed M = none
      ∧ M ∉ d.fromimports.removedModules
      ∧ dictGet? d.changedToFromimport M = none
      ∧ (∀ m, (dictGet? d.changedToImport m).isSome = true →
          dictGet? d.changedToFromimport m = none) := by
  have hname : nM.name = M := name_of_dictGet hwfN hM
  unfold ImportedNames.compare at hok
  cases hred : (compareRaw old new).reduce with
  | error e => rw [hred] at hok; simp at hok
  | ok d =>
    rw [hred] at hok
    dsimp only at hok
    rw [Except.ok.injEq] at hok
    unfold ImportsPyfference.reduce at hred
    cases h1 : reduceToImport (compareRaw old new).newImports (compareRaw old new) with
    | error e => rw [h1] at hred; simp at hred
    | ok c1 =>
      rw [h1] at hred
      dsimp only at hred
      have hnMmem : nM ∈ (compareRaw old new).newImports :=
        compareRaw_nM_mem hM hdir hMold
      have hnodup : ((compareRaw old new).newImports.map (·.name)).Nodup :=
        compareRaw_newImports_nodup hwfN hndN
      have hrm0 : M ∈ (compareRaw old new).fromimports.removedModules := by
        show M ∈ old.fromModules.filter (fun m => m ∉ new.fromModules)
        rw [List.mem_filter]
        exact ⟨hMrm, by simpa using hMnew⟩
      have hrmnd0 : (compareRaw old new).fromimports.removedModules.Nodup :=
        List.Nodup.filter _ hndFO
      obtain ⟨ns, g1, g2, g3, g4, g5, g6⟩ :=
        reduceToImport_main M nM _ _ c1 h1 hnMmem hname hnodup hrm0 hrmnd0
          (by rfl) hnodup hnMmem
      obtain ⟨p1, p2, p3, p4⟩ := reduceToFromImport_pres _ _ _ hred
      obtain ⟨q1, q2, q3, q4⟩ := reduceToImport_pres _ _ _ h1
      have hcfi_none : ∀ m, dictContains new.names m = true →
          dictGet? d.changedToFromimport m = none := by
        intro m hcnt
        cases hgf : dictGet? d.changedToFromimport m with
        | none => rfl
        | some v =>
          exfalso
          have hs : (dictGet? d.changedToFromimport m).isSome = true := by
            rw [hgf]; rfl
          rcases reduceToFromImport_keys _ _ _ hred m hs with hin | hin
          · rw [q2, compareRaw_changedToFromimport_nil] at hin
            simp [dictGet?] at hin
          · rcases List.mem_map.mp hin with ⟨x, hx, hxn⟩
            rw [q1] at hx
            have := (compareRaw_removedImports_names hwfO x hx).1
            rw [hxn] at this
            rw [hcnt] at this
            exact Bool.true_eq_false.mp this
      have htb : d.toBool = true := by
        unfold ImportsPyfference.toBool
        have : (dictGet? d.changedToImport M).isSome = true := by
          rw [p2, g2]; rfl
        have hne := dictGet?_isSome_ne_nil this
        rw [hne]
        simp
      have hr : r = some d := by
        rw [← hok, if_pos htb]
      refine ⟨d, ns, hr, g1, ?_, ?_, ?_, ?_, ?_, ?_, ?_⟩
      · rw [p2]; exact g2
      · rw [p2]; exact g3
      · rw [p1]; exact g6
      · rw [p3]; exact g5
      · rw [p4]; exact g4
      · apply hcfi_none
        rw [← dictGet?_isSome_iff_contains, hM]
        rfl
      · intro m hm
        rw [p2] at hm
        rcases reduceToImport_keys _ _ _ h1 m hm with hin | hin
        · rw [compareRaw_changedToImport_nil] at hin
          simp [dictGet?] at hin
        · rcases List.mem_map.mp hin with ⟨x, hx, hxn⟩
          have := (compareRaw_newImports_names hwfN x hx).2
          rw [hxn] at this
          exact hcfi_none m this

/-- Witness for C2 at the concrete upgrade `from M import x` to `import M`. -/
theorem c2_upgrade_witness :
    ∃ (d : ImportsPyfference) (ns : List ImportedName),
      (some (⟨[], [],
          ⟨[], [], [], []⟩, [],
          [("M", [⟨"x", .fromModule "M" [⟨"x", none⟩], ⟨"x", none⟩⟩])]⟩
        : ImportsPyfference) = some d)
      ∧ dictGet? (compareRaw
          (ImportedNames.extract (.cons (.importFrom "M" [⟨"x", none⟩]) .nil))
          (ImportedNames.extract
            (.cons (.imprt [⟨"M", none⟩]) .nil))).fromimports.removed "M" = some ns
      ∧ dictGet? d.changedToImport "M" = some ns
      ∧ countKey d.changedToImport "M" = 1
      ∧ (∀ n ∈ d.newImports, n.name ≠ "M")
      ∧ dictGet? d.fromimports.removed "M" = none
      ∧ "M" ∉ d.fromimports.removedModules
      ∧ dictGet? d.changedToFromimport "M" = none
      ∧ (∀ m, (dictGet? d.changedToImport m).isSome = true →
          dictGet? d.changedToFromimport m = none) :=
  c2_upgrade_amended
    (ImportedNames.extract (.cons (.importFrom "M" [⟨"x", none⟩]) .nil))
    (ImportedNames.extract (.cons (.imprt [⟨"M", none⟩]) .nil))
    "M" ⟨"M", .direct [⟨"M", none⟩], ⟨"M", none⟩⟩
    (some ⟨[], [], ⟨[], [], [], []⟩, [],
      [("M", [⟨"x", .fromModule "M" [⟨"x", none⟩], ⟨"x", none⟩⟩])]⟩)
    (by decide) (by decide) (by decide) (by decide) (by rfl) (by rfl) (by rfl)
    (by decide) (by decide) (by rfl)
